import Mathlib

/-!
structAlign: triangle-based structural alignment driver

A shallow embedding of `src/structAlign.cpp` (functions `compute_trans` and
`main`) and the properties of its search loop, correspondence builder and
output composition.

Conventions of the embedding

* Scalars (`float` in the source) are elements of a linear ordered field `K`
  (exact arithmetic); the samples use `ℚ`.
* The classes of the geometry library the source includes but does not define
  (`Vector3::dist`, `GeomHash`, `Match`, `Triangle`, `RigidTrans3`) are either
  parameters of the embedded functions or small models written from the
  specification; each such model says so in its doc comment.
* Objects passed by reference and mutated (`Match &match`) are threaded as
  explicit state.  Calls to the library are recorded in call logs carried next
  to the state so that "which calls were issued" can be stated.
* An out-of-bounds `operator[]`, a signed overflow and a loop that cannot
  terminate have no defined result: the embedded function returns `none`.
* Machine integers are natural numbers with explicit bounds: `unsigned int`
  and `int` are 32 bits wide, `size()` is an unsigned integer of `w` bits.
-/

namespace StructAlign

/-! ## Geometry data model -/

/-- A 3-vector (`Vector3`). -/
structure Vector3 (K : Type) where
  x : K
  y : K
  z : K
deriving DecidableEq

namespace Vector3

variable {K : Type}

/-- The vector `Vector3(0, 0, 0)`. -/
def zero [Zero K] : Vector3 K := ⟨0, 0, 0⟩

/-- Componentwise sum (`operator+`, `operator+=`). -/
def add [Add K] (a b : Vector3 K) : Vector3 K := ⟨a.x + b.x, a.y + b.y, a.z + b.z⟩

/-- Unary minus (`operator-`). -/
def neg [Neg K] (a : Vector3 K) : Vector3 K := ⟨-a.x, -a.y, -a.z⟩

/-- Componentwise difference. -/
def sub [Sub K] (a b : Vector3 K) : Vector3 K := ⟨a.x - b.x, a.y - b.y, a.z - b.z⟩

/-- Division by a scalar (`operator/=`). -/
def sdiv [Div K] (a : Vector3 K) (s : K) : Vector3 K := ⟨a.x / s, a.y / s, a.z / s⟩

/-- Cross product. -/
def cross [Mul K] [Sub K] (a b : Vector3 K) : Vector3 K :=
  ⟨a.y * b.z - a.z * b.y, a.z * b.x - a.x * b.z, a.x * b.y - a.y * b.x⟩

end Vector3

/-- A 3×3 matrix (`Matrix3`), row by row. -/
structure Matrix3 (K : Type) where
  a11 : K
  a12 : K
  a13 : K
  a21 : K
  a22 : K
  a23 : K
  a31 : K
  a32 : K
  a33 : K
deriving DecidableEq

namespace Matrix3

variable {K : Type}

/-- The identity matrix. -/
def one [Zero K] [One K] : Matrix3 K := ⟨1, 0, 0, 0, 1, 0, 0, 0, 1⟩

/-- Matrix times vector. -/
def mulVec [Add K] [Mul K] (m : Matrix3 K) (v : Vector3 K) : Vector3 K :=
  ⟨m.a11 * v.x + m.a12 * v.y + m.a13 * v.z,
   m.a21 * v.x + m.a22 * v.y + m.a23 * v.z,
   m.a31 * v.x + m.a32 * v.y + m.a33 * v.z⟩

/-- Matrix product. -/
def mul [Add K] [Mul K] (m n : Matrix3 K) : Matrix3 K :=
  ⟨m.a11 * n.a11 + m.a12 * n.a21 + m.a13 * n.a31,
   m.a11 * n.a12 + m.a12 * n.a22 + m.a13 * n.a32,
   m.a11 * n.a13 + m.a12 * n.a23 + m.a13 * n.a33,
   m.a21 * n.a11 + m.a22 * n.a21 + m.a23 * n.a31,
   m.a21 * n.a12 + m.a22 * n.a22 + m.a23 * n.a32,
   m.a21 * n.a13 + m.a22 * n.a23 + m.a23 * n.a33,
   m.a31 * n.a11 + m.a32 * n.a21 + m.a33 * n.a31,
   m.a31 * n.a12 + m.a32 * n.a22 + m.a33 * n.a32,
   m.a31 * n.a13 + m.a32 * n.a23 + m.a33 * n.a33⟩

end Matrix3

/-- Modelled from the spec: `RigidTrans3` (header `RigidTrans3.h` is not part
of the sources).  The specification's data model: "a pair (R, t) acting as
x ↦ R·x + t.  Closed under composition". -/
structure RigidTrans3 (K : Type) where
  rot : Matrix3 K
  trans : Vector3 K
deriving DecidableEq

namespace RigidTrans3

variable {K : Type}

/-- Modelled from the spec: the default constructor `RigidTrans3()`, the
identity transform ("T₀ = identity"). -/
def identity [Zero K] [One K] : RigidTrans3 K := ⟨Matrix3.one, Vector3.zero⟩

/-- Modelled from the spec: `RigidTrans3(Vector3(0, 0, 0), t)`, the transform
with zero rotation angles and translation `t` ("Translate(t)"). -/
def ofTranslation [Zero K] [One K] (t : Vector3 K) : RigidTrans3 K := ⟨Matrix3.one, t⟩

/-- Modelled from the spec: `T * v`, the action x ↦ R·x + t. -/
def apply [Add K] [Mul K] (T : RigidTrans3 K) (v : Vector3 K) : Vector3 K :=
  (T.rot.mulVec v).add T.trans

/-- Modelled from the spec: `T1 * T2`, the composition T1 ∘ T2. -/
def comp [Add K] [Mul K] (T1 T2 : RigidTrans3 K) : RigidTrans3 K :=
  ⟨T1.rot.mul T2.rot, (T1.rot.mulVec T2.trans).add T1.trans⟩

end RigidTrans3

/-- An atom (`Atom`): only its position is used by the driver. -/
structure Atom (K : Type) where
  position : Vector3 K
deriving DecidableEq

/-- The mutating `Atom::update(v)`: replace the position. -/
def Atom.update {K : Type} (_a : Atom K) (v : Vector3 K) : Atom K := ⟨v⟩

/-- A molecule (`Molecule<Atom>`): a vector of atoms indexed from 0. -/
abbrev Molecule (K : Type) := List (Atom K)

/-- The bulk translation `mol += v`: add `v` to every position. -/
def Molecule.translate {K : Type} [Add K] (mol : Molecule K) (v : Vector3 K) : Molecule K :=
  mol.map (fun a => a.update (a.position.add v))

/-- An ordered triple of points (`Triangle`). -/
structure Triangle (K : Type) where
  a : Vector3 K
  b : Vector3 K
  c : Vector3 K
deriving DecidableEq

/-- The three points of a triangle lie on one line: (b − a) × (c − a) = 0. -/
def Triangle.collinear {K : Type} [Zero K] [Mul K] [Sub K] (t : Triangle K) : Prop :=
  (t.b.sub t.a).cross (t.c.sub t.a) = Vector3.zero

/-! ## Loops -/

/-- The counted loop `for (unsigned int i = i0; i < i0 + n; i++) body(i)` whose
body may be undefined: the state after `n` iterations starting at index
`i0`, or `none` as soon as one iteration is undefined. -/
def forLoop {σ : Type} (body : Nat → σ → Option σ) : Nat → Nat → σ → Option σ
  | 0, _, s => some s
  | n + 1, i, s => (body i s).bind (forLoop body n (i + 1))

/-- The largest value of a 32-bit `int`. -/
def INT_MAX : Nat := 2 ^ 31 - 1

/-- The counted loop `for (int i = i0; i < i0 + n; i++) body(i)` with a signed
32-bit counter: as `forLoop`, and the increment `i++` executed after each
iteration is undefined when `i = INT_MAX`. -/
def intLoop {σ : Type} (body : Nat → σ → Option σ) : Nat → Nat → σ → Option σ
  | 0, _, s => some s
  | n + 1, i, s =>
    (body i s).bind (fun s1 => if i + 1 ≤ INT_MAX then intLoop body n (i + 1) s1 else none)

/-- Unsigned subtraction `a - b` on `w`-bit integers (`size() - 2`). -/
def wrapSub (w a b : Nat) : Nat := (a + 2 ^ w - b % 2 ^ w) % 2 ^ w

/-! ## The correspondence builder `compute_trans` -/

/-- One recorded call `match.add(a1, a2, a3, a4)`: the four arguments in the
order in which they are passed. -/
structure AddCall (K : Type) where
  arg1 : Nat
  arg2 : Nat
  arg3 : K
  arg4 : K
deriving DecidableEq

/-- One recorded call `gHash.query(p, epsilon, result)` issued for the model
atom of index `index`. -/
structure QueryCall (K : Type) where
  index : Nat
  point : Vector3 K
  radius : K
deriving DecidableEq

/-- The state threaded through `compute_trans`: the `Match` object (of a type
`M` left to the library) and the logs of the library calls issued so far. -/
structure BuildState (K M : Type) where
  match_ : M
  adds : List (AddCall K)
  queries : List (QueryCall K)

/-- Lines 32–38 of `compute_trans`: the loop over the hash result.  `add` is
`Match::add`, `dist` is `Vector3::dist`; `molTarget[x]` is undefined for an
index outside the molecule. -/
def compute_trans_inner {K M : Type} [LinearOrderedField K]
    (add : M → Nat → Nat → K → K → M) (dist : Vector3 K → Vector3 K → K)
    (epsilon : K) (molTarget : Molecule K) (mol_atom : Vector3 K) (i : Nat) :
    List Nat → BuildState K M → Option (BuildState K M)
  | [], st => some st
  | x :: rest, st =>
    match molTarget[x]? with
    | none => none
    | some t =>
      let d := dist mol_atom t.position
      if d ≤ epsilon then
        let score := 1 / (1 + d)
        compute_trans_inner add dist epsilon molTarget mol_atom i rest
          { st with match_ := add st.match_ x i score score,
                    adds := st.adds ++ [⟨x, i, score, score⟩] }
      else
        compute_trans_inner add dist epsilon molTarget mol_atom i rest st

/-- Lines 26–39 of `compute_trans`: the body of the loop over the model atoms.
`query` is `GeomHash::query`, returning the content of the `HashResult`. -/
def compute_trans_body {K M H : Type} [LinearOrderedField K]
    (add : M → Nat → Nat → K → K → M) (dist : Vector3 K → Vector3 K → K)
    (query : H → Vector3 K → K → List Nat)
    (gHash : H) (epsilon : K) (molModel molTarget : Molecule K) (rig_trans : RigidTrans3 K)
    (i : Nat) (st : BuildState K M) : Option (BuildState K M) :=
  match molModel[i]? with
  | none => none
  | some m =>
    let mol_atom := rig_trans.apply m.position
    let result := query gHash mol_atom epsilon
    compute_trans_inner add dist epsilon molTarget mol_atom i result
      { st with queries := st.queries ++ [⟨i, mol_atom, epsilon⟩] }

/-- The function `compute_trans` (lines 19–41).  The counter is an
`unsigned int`: for a molecule of 2^32 atoms or more the test `i < size()`
never fails and the function does not return. -/
def compute_trans {K M H : Type} [LinearOrderedField K]
    (add : M → Nat → Nat → K → K → M) (dist : Vector3 K → Vector3 K → K)
    (query : H → Vector3 K → K → List Nat)
    (match_ : M) (gHash : H) (epsilon : K) (molModel molTarget : Molecule K)
    (rig_trans : RigidTrans3 K) : Option (BuildState K M) :=
  if molModel.length < 2 ^ 32 then
    forLoop (compute_trans_body add dist query gHash epsilon molModel molTarget rig_trans)
      molModel.length 0 ⟨match_, [], []⟩
  else none

/-! ## The `Match` correspondence list -/

/-- Modelled from the spec: one stored tuple of a `Match`,
"(target_idx, model_idx, priority, weight)" (class `Match` of `Match.h` is not
part of the sources). -/
structure MatchEntry (K : Type) where
  target : Nat
  model : Nat
  weight : K
  priority : K
deriving DecidableEq

/-- Modelled from the spec: a `Match`, "an ordered collection of
(target_idx, model_idx, priority, weight) tuples". -/
abbrev Match (K : Type) := List (MatchEntry K)

/-- An entry shares its target index or its model index with the pair
`(j, i)`. -/
def MatchEntry.clashes {K : Type} (e : MatchEntry K) (j i : Nat) : Bool :=
  e.target == j || e.model == i

/-- Modelled from the spec: `Match::add(j, i, s, p)`, "if either index already
occurs, keep the entry with greater priority; otherwise append".  The new pair
replaces the stored entries it clashes with when its priority is greater than
each of theirs ("ties in priority are broken by insertion order": on a tie the
stored entry stays). -/
def Match.add {K : Type} [LinearOrder K] (m : Match K) (j i : Nat) (s p : K) : Match K :=
  if (m.filter (fun e => e.clashes j i)).isEmpty then
    m ++ [⟨j, i, s, p⟩]
  else if (m.filter (fun e => e.clashes j i)).all (fun e => e.priority < p) then
    m.filter (fun e => !e.clashes j i) ++ [⟨j, i, s, p⟩]
  else
    m

/-- Modelled from the spec: `Match::size()`, the number of stored pairs. -/
def Match.size {K : Type} (m : Match K) : Nat := m.length

/-- Invariant M1 of the specification: "each target_idx appears at most once;
each model_idx appears at most once". -/
def Match.M1 {K : Type} (m : Match K) : Prop :=
  (m.map (fun e => e.target)).Nodup ∧ (m.map (fun e => e.model)).Nodup

/-! ## The search driver (`main`, lines 107–141) -/

/-- The operations of the geometry library used by `main` whose code is not
part of the sources, as parameters: `Vector3::dist`, the `GeomHash`
constructor, `insert` and `query`, the `Match` constructor, `add`,
`calculateBestFit`, `size`, `rigidTrans` and `rmsd`, and the triangle
operator `target_tr | model_tr`.  `M` is the type of `Match` objects and `H`
the type of `GeomHash` objects. -/
structure Library (K M H : Type) where
  dist : Vector3 K → Vector3 K → K
  hashNew : Nat → K → H
  insert : H → Vector3 K → Nat → H
  query : H → Vector3 K → K → List Nat
  matchNew : M
  add : M → Nat → Nat → K → K → M
  calculateBestFit : M → Molecule K → Molecule K → M
  size : M → Nat
  rigidTrans : M → RigidTrans3 K
  rmsd : M → K
  pose : Triangle K → Triangle K → RigidTrans3 K

/-- The record of one candidate for which the driver built and refined a
`Match`: its indices, its two triangles, and the size, transform and RMSD read
from the refined `Match`. -/
structure Candidate (K : Type) where
  i : Nat
  j : Nat
  target_tr : Triangle K
  model_tr : Triangle K
  size : Nat
  rigidTrans : RigidTrans3 K
  rmsd : K
deriving DecidableEq

/-- The state of the search loops: the best-so-far variables `iMaxSize`,
`rtransBest`, `rmsd` of `main`, and the log of the candidates evaluated. -/
structure SearchState (K : Type) where
  iMaxSize : Nat
  rtransBest : RigidTrans3 K
  rmsd : K
  evaluated : List (Candidate K)
deriving DecidableEq

/-- The state before the loops (lines 115–117). -/
def SearchState.init {K : Type} [Zero K] [One K] : SearchState K :=
  ⟨0, RigidTrans3.identity, 0, []⟩

/-- The best-so-far update of lines 134–139, for a candidate with the given
size, transform and RMSD. -/
def SearchState.record {K : Type} (st : SearchState K) (c : Candidate K) : SearchState K :=
  if st.iMaxSize < c.size then
    { iMaxSize := c.size, rtransBest := c.rigidTrans, rmsd := c.rmsd,
      evaluated := st.evaluated ++ [c] }
  else
    { st with evaluated := st.evaluated ++ [c] }

/-- Lines 124–133: the evaluation of the candidate `(i, j)` for the target
triangle `target_tr`: the model triangle, the pose `target_tr | model_tr`, a
fresh `Match` filled by `compute_trans` and refined by `calculateBestFit`.
The result is the record of what the driver reads from the refined `Match`.
`j + 2` is an `int`, and `molModel[k]` is undefined outside the molecule. -/
def evalCandidate {K M H : Type} [LinearOrderedField K] (L : Library K M H)
    (gHash : H) (epsilon : K) (molModel molTarget : Molecule K)
    (i : Nat) (target_tr : Triangle K) (j : Nat) : Option (Candidate K) :=
  if j + 2 ≤ INT_MAX then
    match molModel[j]?, molModel[j + 1]?, molModel[j + 2]? with
    | some a, some b, some c =>
      let model_tr : Triangle K := ⟨a.position, b.position, c.position⟩
      let rig_trans := L.pose target_tr model_tr
      match compute_trans L.add L.dist L.query L.matchNew gHash epsilon molModel molTarget
          rig_trans with
      | none => none
      | some built =>
        let m := L.calculateBestFit built.match_ molTarget molModel
        some ⟨i, j, target_tr, model_tr, L.size m, L.rigidTrans m, L.rmsd m⟩
    | _, _, _ => none
  else none

/-- Lines 124–139: the body of the inner loop, the evaluation of the candidate
followed by the best-so-far update. -/
def search_inner {K M H : Type} [LinearOrderedField K] (L : Library K M H)
    (gHash : H) (epsilon : K) (molModel molTarget : Molecule K)
    (i : Nat) (target_tr : Triangle K) (j : Nat) (st : SearchState K) :
    Option (SearchState K) :=
  (evalCandidate L gHash epsilon molModel molTarget i target_tr j).map st.record

/-- Lines 119–140: the body of the outer loop, for the target index `i`.  The
bound of the inner loop is `molModel.size() - 2` in `w`-bit unsigned
arithmetic. -/
def search_outer {K M H : Type} [LinearOrderedField K] (L : Library K M H) (w : Nat)
    (gHash : H) (epsilon : K) (molModel molTarget : Molecule K)
    (i : Nat) (st : SearchState K) : Option (SearchState K) :=
  if i + 2 ≤ INT_MAX then
    match molTarget[i]?, molTarget[i + 1]?, molTarget[i + 2]? with
    | some a, some b, some c =>
      intLoop (search_inner L gHash epsilon molModel molTarget i
          ⟨a.position, b.position, c.position⟩)
        (wrapSub w molModel.length 2) 0 st
    | _, _, _ => none
  else none

/-- Lines 115–141: the two nested loops of `main` over the candidates.  The
bound of the outer loop is `molTarget.size() - 2` in `w`-bit unsigned
arithmetic. -/
def search {K M H : Type} [LinearOrderedField K] (L : Library K M H) (w : Nat)
    (gHash : H) (epsilon : K) (molModel molTarget : Molecule K) : Option (SearchState K) :=
  intLoop (search_outer L w gHash epsilon molModel molTarget)
    (wrapSub w molTarget.length 2) 0 SearchState.init

/-! ## Centering, hash construction and output (`main`, lines 89–154) -/

/-- Lines 90–94 and 96–100: the sum of the positions divided by `size()`. -/
def centerOfMass {K : Type} [LinearOrderedField K] (mol : Molecule K) : Vector3 K :=
  (mol.foldl (fun acc a => acc.add a.position) Vector3.zero).sdiv (mol.length : K)

/-- Lines 109–112: the hash of cell size `epsilon` filled with the target
positions, each stored with its index. -/
def buildHash {K M H : Type} (L : Library K M H) (epsilon : K) (molTarget : Molecule K) : H :=
  molTarget.enum.foldl (fun h ia => L.insert h ia.2.position ia.1) (L.hashNew 3 epsilon)

/-- What `main` outputs: the three printed values and the atoms written to
`transformed.pdb`. -/
structure Output (K : Type) where
  maxAlignmentSize : Nat
  bestRmsd : K
  rigidTrans : RigidTrans3 K
  transformed : Molecule K
deriving DecidableEq

/-- The function `main` from line 89 on, given the molecules read from the
files: the full-atom model `molModelAll` and the backbone selections
`molModel`, `molTarget`.  The division by `size()` has no exact value for an
empty molecule, and the `int` counter of the loop of line 142 cannot pass
`INT_MAX`. -/
def main {K M H : Type} [LinearOrderedField K] (L : Library K M H) (w : Nat)
    (epsilon : K) (molModelAll molModel molTarget : Molecule K) : Option (Output K) :=
  if molModel.length = 0 ∨ molTarget.length = 0 ∨ INT_MAX < molModelAll.length then none
  else
    let vectModelMass := centerOfMass molModel
    let vectTargetMass := centerOfMass molTarget
    let molModel := molModel.translate vectModelMass.neg
    let molTarget := molTarget.translate vectTargetMass.neg
    let gHash := buildHash L epsilon molTarget
    match search L w gHash epsilon molModel molTarget with
    | none => none
    | some st =>
      some { maxAlignmentSize := st.iMaxSize
             bestRmsd := st.rmsd
             rigidTrans :=
               ((RigidTrans3.ofTranslation vectTargetMass).comp st.rtransBest).comp
                 (RigidTrans3.ofTranslation vectModelMass.neg)
             transformed :=
               molModelAll.map (fun a => a.update (st.rtransBest.apply a.position)) }

/-! ## Reference lists used to describe the call logs -/

/-- The `Match` object reached from `m` by replaying recorded `add` calls. -/
def replay {K M : Type} (add : M → Nat → Nat → K → K → M) (m : M) (calls : List (AddCall K)) : M :=
  calls.foldl (fun acc c => add acc c.arg1 c.arg2 c.arg3 c.arg4) m

/-- The `add` call, if any, for the target index `x` returned by the query at
the point `p` of the model atom `i`. -/
def proposal {K : Type} [LinearOrderedField K] (dist : Vector3 K → Vector3 K → K)
    (epsilon : K) (molTarget : Molecule K) (p : Vector3 K) (i x : Nat) : Option (AddCall K) :=
  match molTarget[x]? with
  | none => none
  | some t =>
    if dist p t.position ≤ epsilon then
      some ⟨x, i, 1 / (1 + dist p t.position), 1 / (1 + dist p t.position)⟩
    else none

/-- The `add` calls for the model atom of index `i`, in the order of the hash
result. -/
def addsAt {K H : Type} [LinearOrderedField K] (dist : Vector3 K → Vector3 K → K)
    (query : H → Vector3 K → K → List Nat) (gHash : H) (epsilon : K)
    (molModel molTarget : Molecule K) (rig_trans : RigidTrans3 K) (i : Nat) : List (AddCall K) :=
  match molModel[i]? with
  | none => []
  | some m =>
    (query gHash (rig_trans.apply m.position) epsilon).filterMap
      (proposal dist epsilon molTarget (rig_trans.apply m.position) i)

/-- The `query` call for the model atom of index `i`. -/
def queryAt {K : Type} [LinearOrderedField K] (epsilon : K) (molModel : Molecule K)
    (rig_trans : RigidTrans3 K) (i : Nat) : List (QueryCall K) :=
  match molModel[i]? with
  | none => []
  | some m => [⟨i, rig_trans.apply m.position, epsilon⟩]

/-- The candidate indices in the order of the two nested loops: `(i, j)` for
`i < n` and, for each `i`, `j < k`. -/
def candidateIndices (n k : Nat) : List (Nat × Nat) :=
  (List.range n).flatMap (fun i => (List.range k).map (fun j => (i, j)))

/-- The best-so-far triple `(iMaxSize, rtransBest, rmsd)` of a search state. -/
def SearchState.best {K : Type} (st : SearchState K) : Nat × RigidTrans3 K × K :=
  (st.iMaxSize, st.rtransBest, st.rmsd)

/-- The record `c` is what the driver computes for the candidate
`(c.i, c.j)`: its triangles are the consecutive triples of the target at `c.i`
and of the model at `c.j`, and its size, transform and RMSD are read from the
`Match` built by `compute_trans` at the pose `target_tr | model_tr` from an
empty `Match` and refined by `calculateBestFit`. -/
def Candidate.Built {K M H : Type} [LinearOrderedField K] (L : Library K M H)
    (gHash : H) (epsilon : K) (molModel molTarget : Molecule K) (c : Candidate K) : Prop :=
  ∃ t0 t1 t2 m0 m1 m2 built,
    molTarget[c.i]? = some t0 ∧ molTarget[c.i + 1]? = some t1 ∧ molTarget[c.i + 2]? = some t2 ∧
    molModel[c.j]? = some m0 ∧ molModel[c.j + 1]? = some m1 ∧ molModel[c.j + 2]? = some m2 ∧
    c.target_tr = ⟨t0.position, t1.position, t2.position⟩ ∧
    c.model_tr = ⟨m0.position, m1.position, m2.position⟩ ∧
    compute_trans L.add L.dist L.query L.matchNew gHash epsilon molModel molTarget
      (L.pose c.target_tr c.model_tr) = some built ∧
    c.size = L.size (L.calculateBestFit built.match_ molTarget molModel) ∧
    c.rigidTrans = L.rigidTrans (L.calculateBestFit built.match_ molTarget molModel) ∧
    c.rmsd = L.rmsd (L.calculateBestFit built.match_ molTarget molModel)

/-- The best-so-far triple of a state is the initial `(0, identity, 0)` when
every logged candidate has size 0, and otherwise that of the first logged
candidate whose size is the largest in the log. -/
def SearchState.FirstMax {K : Type} [Zero K] [One K] (st : SearchState K) : Prop :=
  ((∀ c ∈ st.evaluated, c.size = 0) ∧ st.best = (0, RigidTrans3.identity, 0)) ∨
  ∃ pre c post, st.evaluated = pre ++ c :: post ∧ (∀ d ∈ pre, d.size < c.size) ∧
    (∀ d ∈ post, d.size ≤ c.size) ∧ 0 < c.size ∧ st.best = (c.size, c.rigidTrans, c.rmsd)

/-- The centroid of a molecule in the words of the specification: the
arithmetic mean of its positions. -/
def centroid {K : Type} [LinearOrderedField K] (mol : Molecule K) : Vector3 K :=
  ⟨(mol.map (fun a => a.position.x)).sum / (mol.length : K),
   (mol.map (fun a => a.position.y)).sum / (mol.length : K),
   (mol.map (fun a => a.position.z)).sum / (mol.length : K)⟩

/-- A molecule centred as the specification words it: each position minus the
centroid of the molecule. -/
def centred {K : Type} [LinearOrderedField K] (mol : Molecule K) : Molecule K :=
  mol.map (fun a => ⟨a.position.sub (centroid mol)⟩)

/-! ## Refinement of a `Match` -/

/-- The squared Euclidean norm of a vector. -/
def Vector3.normSq {K : Type} [Add K] [Mul K] (a : Vector3 K) : K :=
  a.x * a.x + a.y * a.y + a.z * a.z

/-- Modelled from the spec: a `Match` with the state that refinement stores in
it, "the Match exposes `size()`, `rigid_trans()`, and `rmsd()`" (class `Match`
is not part of the sources). -/
structure RefinedMatch (K : Type) where
  pairs : Match K
  rigidTrans : RigidTrans3 K
  rmsd : K

/-- The position of the atom of index `i` (the zero vector outside the
molecule). -/
def Molecule.positionAt {K : Type} [Zero K] (mol : Molecule K) (i : Nat) : Vector3 K :=
  match mol[i]? with
  | some a => a.position
  | none => Vector3.zero

/-- Modelled from the spec: the objective of `Match::calculateBestFit`,
"Σ wₖ · ‖T·model[iₖ] − target[jₖ]‖² over the stored pairs". -/
def fitCost {K : Type} [LinearOrderedField K] (pairs : Match K) (molTarget molModel : Molecule K)
    (T : RigidTrans3 K) : K :=
  (pairs.map (fun e => e.weight *
    ((T.apply (molModel.positionAt e.model)).sub (molTarget.positionAt e.target)).normSq)).sum

/-- A rotation matrix ("R ∈ SO(3)"): orthonormal columns and determinant 1. -/
def Matrix3.IsRotation {K : Type} [LinearOrderedField K] (m : Matrix3 K) : Prop :=
  m.a11 * m.a11 + m.a21 * m.a21 + m.a31 * m.a31 = 1 ∧
  m.a12 * m.a12 + m.a22 * m.a22 + m.a32 * m.a32 = 1 ∧
  m.a13 * m.a13 + m.a23 * m.a23 + m.a33 * m.a33 = 1 ∧
  m.a11 * m.a12 + m.a21 * m.a22 + m.a31 * m.a32 = 0 ∧
  m.a11 * m.a13 + m.a21 * m.a23 + m.a31 * m.a33 = 0 ∧
  m.a12 * m.a13 + m.a22 * m.a23 + m.a32 * m.a33 = 0 ∧
  m.a11 * (m.a22 * m.a33 - m.a23 * m.a32) - m.a12 * (m.a21 * m.a33 - m.a23 * m.a31) +
    m.a13 * (m.a21 * m.a32 - m.a22 * m.a31) = 1

/-- Modelled from the spec: the contract of `Match::calculateBestFit`, "the
rigid transform T* that minimizes Σ wₖ · ‖T·model[iₖ] − target[jₖ]‖² over the
stored pairs": `T` is a rigid transform and no rigid transform has a smaller
objective. -/
def IsBestFit {K : Type} [LinearOrderedField K] (pairs : Match K) (molTarget molModel : Molecule K)
    (T : RigidTrans3 K) : Prop :=
  T.rot.IsRotation ∧
  ∀ T1 : RigidTrans3 K, T1.rot.IsRotation →
    fitCost pairs molTarget molModel T ≤ fitCost pairs molTarget molModel T1

/-- Modelled from the spec: a library whose `Match` is the modelled one.  A
fresh `Match` has no pair, `add` is `Match.add` on the pairs,
`calculateBestFit` replaces the stored transform and RMSD by the result of
`fit` and leaves the pairs ("replacing the stored transform inside the
Match"), and `size()` counts the pairs.  The distance, the hash, the pose and
the fit itself stay parameters. -/
def specLibrary {K H : Type} [LinearOrderedField K] (dist : Vector3 K → Vector3 K → K)
    (hashNew : Nat → K → H) (insert : H → Vector3 K → Nat → H)
    (query : H → Vector3 K → K → List Nat) (pose : Triangle K → Triangle K → RigidTrans3 K)
    (fit : Match K → Molecule K → Molecule K → RigidTrans3 K × K) :
    Library K (RefinedMatch K) H where
  dist := dist
  hashNew := hashNew
  insert := insert
  query := query
  matchNew := ⟨[], RigidTrans3.identity, 0⟩
  add := fun m j i s p => { m with pairs := m.pairs.add j i s p }
  calculateBestFit := fun m molTarget molModel =>
    { m with rigidTrans := (fit m.pairs molTarget molModel).1,
             rmsd := (fit m.pairs molTarget molModel).2 }
  size := fun m => m.pairs.size
  rigidTrans := fun m => m.rigidTrans
  rmsd := fun m => m.rmsd
  pose := pose

/-- The list `pairs` of pairs `(j, i)` of a target index and a model index is
one-to-one (no target index and no model index occurs twice) and each model
atom `i`, moved by `T`, is close to its target atom `j`. -/
def Paired {K : Type} [LinearOrderedField K] (close : Vector3 K → Vector3 K → Prop)
    (T : RigidTrans3 K) (molModel molTarget : Molecule K) (pairs : List (Nat × Nat)) : Prop :=
  (pairs.map Prod.fst).Nodup ∧ (pairs.map Prod.snd).Nodup ∧
  ∀ p ∈ pairs, ∃ a t, molModel[p.2]? = some a ∧ molTarget[p.1]? = some t ∧
    close (T.apply a.position) t.position

/-- The pairs stored by `compute_trans` in an empty modelled `Match` at the
pose `P`: the replay of the `add` calls issued. -/
def posePairs {K H : Type} [LinearOrderedField K] (dist : Vector3 K → Vector3 K → K)
    (query : H → Vector3 K → K → List Nat) (gHash : H) (epsilon : K)
    (molModel molTarget : Molecule K) (P : RigidTrans3 K) : Match K :=
  replay Match.add [] ((List.range molModel.length).flatMap
    (addsAt dist query gHash epsilon molModel molTarget P))

/-! ## Sample library and inputs -/

/-- A stand-in for `Vector3::dist` on the samples: the sum of the absolute
coordinate differences (it is the Euclidean distance for two points that
differ in one coordinate only, as all sample points do). -/
def sampleDist (a b : Vector3 ℚ) : ℚ := |a.x - b.x| + |a.y - b.y| + |a.z - b.z|

/-- A stand-in for `GeomHash` on the samples: the list of stored
(point, payload) pairs; a query returns the payloads stored within the cube of
half side `eps` around the query point. -/
def sampleQuery (h : List (Vector3 ℚ × Nat)) (p : Vector3 ℚ) (eps : ℚ) : List Nat :=
  (h.filter (fun e => decide (|e.1.x - p.x| ≤ eps ∧ |e.1.y - p.y| ≤ eps ∧
    |e.1.z - p.z| ≤ eps))).map (fun e => e.2)

/-- A stand-in for the triangle operator `target_tr | model_tr` on the
samples: the translation taking the first model point to the first target
point.  It is the exact pose when the target triangle is a translate of the
model triangle. -/
def translationPose (t m : Triangle ℚ) : RigidTrans3 ℚ :=
  RigidTrans3.ofTranslation (t.a.sub m.a)

/-- A stand-in for the library on the samples: the pose is `translationPose`,
the refinement keeps the `Match` as it is, and a `Match` reports the identity
and RMSD 0. -/
def sampleLib : Library ℚ (Match ℚ) (List (Vector3 ℚ × Nat)) where
  dist := sampleDist
  hashNew := fun _ _ => []
  insert := fun h p n => h ++ [(p, n)]
  query := sampleQuery
  matchNew := []
  add := Match.add
  calculateBestFit := fun m _ _ => m
  size := Match.size
  rigidTrans := fun _ => RigidTrans3.identity
  rmsd := fun _ => 0
  pose := translationPose

/-- The atom at `(x, y, z)`. -/
def atomAt (x y z : ℚ) : Atom ℚ := ⟨⟨x, y, z⟩⟩

/-- A sample model: a right triangle at the origin. -/
def sampleModel : Molecule ℚ := [atomAt 0 0 0, atomAt 1 0 0, atomAt 0 1 0]

/-- A sample target: the sample model moved by `(10, 0, 0)`. -/
def sampleTarget : Molecule ℚ := [atomAt 10 0 0, atomAt 11 0 0, atomAt 10 1 0]

/-- A sample target whose three atoms lie on one line. -/
def lineTarget : Molecule ℚ := [atomAt 0 0 0, atomAt 1 0 0, atomAt 2 0 0]

/-- A sample target of one atom. -/
def oneAtomTarget : Molecule ℚ := [atomAt 0 0 0]

/-- A stand-in for `Match::calculateBestFit` on the samples: the translation
by the weighted mean of the offsets `target[j] − model[i]` of the stored
pairs (the best fit among the translations), reported with RMSD 0.  On the
sample `fitPairs` it is the best fit among all rigid transforms
(`fit_best`). -/
def translationFit (pairs : Match ℚ) (molTarget molModel : Molecule ℚ) : RigidTrans3 ℚ × ℚ :=
  (RigidTrans3.ofTranslation
    ⟨(pairs.map (fun e => e.weight *
        ((molTarget.positionAt e.target).x - (molModel.positionAt e.model).x))).sum /
      (pairs.map (fun e => e.weight)).sum,
     (pairs.map (fun e => e.weight *
        ((molTarget.positionAt e.target).y - (molModel.positionAt e.model).y))).sum /
      (pairs.map (fun e => e.weight)).sum,
     (pairs.map (fun e => e.weight *
        ((molTarget.positionAt e.target).z - (molModel.positionAt e.model).z))).sum /
      (pairs.map (fun e => e.weight)).sum⟩, 0)

/-- The sample library with a refinement: the modelled `Match`, the sample
distance and hash, `translationPose` and `translationFit`. -/
def fitLib : Library ℚ (RefinedMatch ℚ) (List (Vector3 ℚ × Nat)) :=
  specLibrary sampleDist (fun _ _ => []) (fun h p n => h ++ [(p, n)]) sampleQuery
    translationPose translationFit

/-- A sample model of 7 atoms in the plane `z = 0`, symmetric about the
`x` axis, with centroid at the origin; no three consecutive atoms are on a
line and any two atoms are at least 5 apart. -/
def fitModel : Molecule ℚ :=
  [atomAt (-10) 5 0, atomAt (-10) (-5) 0, atomAt 0 5 0, atomAt 0 (-5) 0, atomAt 10 0 0,
   atomAt 5 5 0, atomAt 5 (-5) 0]

/-- A sample target with centroid at the origin: the atoms of `fitModel`
moved along `x`, the first four by `1/10`, the fifth by `4/5`, the last two by
`−3/5`.  After the translation by `(1/10, 0, 0)` the first four model atoms
coincide with their target atoms and the other three are at distance
`7/10` from theirs, the fifth on one side and the last two on the other. -/
def fitTarget : Molecule ℚ :=
  [atomAt (-99 / 10) 5 0, atomAt (-99 / 10) (-5) 0, atomAt (1 / 10) 5 0, atomAt (1 / 10) (-5) 0,
   atomAt (54 / 5) 0 0, atomAt (22 / 5) 5 0, atomAt (22 / 5) (-5) 0]

/-- The `add` calls of `compute_trans` on the fit samples at the pose
`(1/10, 0, 0)` with threshold `3/4`: each atom with its own partner, with
score `1 / (1 + d)`. -/
def fitAdds : List (AddCall ℚ) :=
  [⟨0, 0, 1, 1⟩, ⟨1, 1, 1, 1⟩, ⟨2, 2, 1, 1⟩, ⟨3, 3, 1, 1⟩, ⟨4, 4, 10 / 17, 10 / 17⟩,
   ⟨5, 5, 10 / 17, 10 / 17⟩, ⟨6, 6, 10 / 17, 10 / 17⟩]

/-- The pairs stored in the `Match` by the calls `fitAdds`. -/
def fitPairs : Match ℚ :=
  [⟨0, 0, 1, 1⟩, ⟨1, 1, 1, 1⟩, ⟨2, 2, 1, 1⟩, ⟨3, 3, 1, 1⟩, ⟨4, 4, 10 / 17, 10 / 17⟩,
   ⟨5, 5, 10 / 17, 10 / 17⟩, ⟨6, 6, 10 / 17, 10 / 17⟩]

/-! ## Loop rules -/

theorem forLoop_spec {σ : Type} (body : Nat → σ → Option σ) (P : Nat → σ → Prop) :
    ∀ (n i : Nat) (s : σ), P i s →
      (∀ k t, i ≤ k → k < i + n → P k t → ∃ t1, body k t = some t1 ∧ P (k + 1) t1) →
      ∃ s1, forLoop body n i s = some s1 ∧ P (i + n) s1 := by
  intro n
  induction n with
  | zero => intro i s hP _; exact ⟨s, rfl, by simpa using hP⟩
  | succ n ih =>
    intro i s hP hstep
    obtain ⟨t1, hb, hP1⟩ := hstep i s (Nat.le_refl i) (by omega) hP
    obtain ⟨s1, hs1, hP2⟩ := ih (i + 1) t1 hP1 (fun k t hk1 hk2 hPk =>
      hstep k t (by omega) (by omega) hPk)
    refine ⟨s1, ?_, ?_⟩
    · simp [forLoop, hb, hs1]
    · have : i + (n + 1) = i + 1 + n := by omega
      rw [this]; exact hP2

theorem intLoop_spec {σ : Type} (body : Nat → σ → Option σ) (P : Nat → σ → Prop) :
    ∀ (n i : Nat) (s : σ), i + n ≤ INT_MAX → P i s →
      (∀ k t, i ≤ k → k < i + n → P k t → ∃ t1, body k t = some t1 ∧ P (k + 1) t1) →
      ∃ s1, intLoop body n i s = some s1 ∧ P (i + n) s1 := by
  intro n
  induction n with
  | zero => intro i s _ hP _; exact ⟨s, rfl, by simpa using hP⟩
  | succ n ih =>
    intro i s hmax hP hstep
    obtain ⟨t1, hb, hP1⟩ := hstep i s (Nat.le_refl i) (by omega) hP
    obtain ⟨s1, hs1, hP2⟩ := ih (i + 1) t1 (by omega) hP1 (fun k t hk1 hk2 hPk =>
      hstep k t (by omega) (by omega) hPk)
    have hle : i + 1 ≤ INT_MAX := by omega
    refine ⟨s1, ?_, ?_⟩
    · simp [intLoop, hb, hs1, hle]
    · have : i + (n + 1) = i + 1 + n := by omega
      rw [this]; exact hP2

/-! ## The correspondence builder -/

theorem compute_trans_inner_eq {K M : Type} [LinearOrderedField K]
    (add : M → Nat → Nat → K → K → M) (dist : Vector3 K → Vector3 K → K)
    (epsilon : K) (molTarget : Molecule K) (p : Vector3 K) (i : Nat) :
    ∀ (result : List Nat) (st : BuildState K M), (∀ x ∈ result, x < molTarget.length) →
      compute_trans_inner add dist epsilon molTarget p i result st =
        some ⟨replay add st.match_ (result.filterMap (proposal dist epsilon molTarget p i)),
              st.adds ++ result.filterMap (proposal dist epsilon molTarget p i), st.queries⟩ := by
  intro result
  induction result with
  | nil => intro st _; simp [compute_trans_inner, replay]
  | cons x rest ih =>
    intro st hx
    have hx0 : x < molTarget.length := hx x (List.mem_cons_self _ _)
    have hrest : ∀ y ∈ rest, y < molTarget.length := fun y hy => hx y (List.mem_cons_of_mem _ hy)
    have hget : molTarget[x]? = some molTarget[x] := List.getElem?_eq_getElem hx0
    by_cases hd : dist p molTarget[x].position ≤ epsilon
    · simp [compute_trans_inner, hget, hd, ih _ hrest, proposal, replay, List.filterMap_cons]
    · simp [compute_trans_inner, hget, hd, ih _ hrest, proposal, replay, List.filterMap_cons]

theorem replay_append {K M : Type} (add : M → Nat → Nat → K → K → M) (m : M)
    (xs ys : List (AddCall K)) : replay add m (xs ++ ys) = replay add (replay add m xs) ys := by
  simp [replay, List.foldl_append]

theorem compute_trans_eq {K M H : Type} [LinearOrderedField K]
    (add : M → Nat → Nat → K → K → M) (dist : Vector3 K → Vector3 K → K)
    (query : H → Vector3 K → K → List Nat)
    (m0 : M) (gHash : H) (epsilon : K) (molModel molTarget : Molecule K)
    (rig_trans : RigidTrans3 K)
    (hlen : molModel.length < 2 ^ 32)
    (hq : ∀ a ∈ molModel, ∀ x ∈ query gHash (rig_trans.apply a.position) epsilon,
      x < molTarget.length) :
    compute_trans add dist query m0 gHash epsilon molModel molTarget rig_trans =
      some ⟨replay add m0 ((List.range molModel.length).flatMap
              (addsAt dist query gHash epsilon molModel molTarget rig_trans)),
            (List.range molModel.length).flatMap
              (addsAt dist query gHash epsilon molModel molTarget rig_trans),
            (List.range molModel.length).flatMap (queryAt epsilon molModel rig_trans)⟩ := by
  unfold compute_trans
  rw [if_pos hlen]
  obtain ⟨s1, hs1, hP⟩ := forLoop_spec
    (compute_trans_body add dist query gHash epsilon molModel molTarget rig_trans)
    (fun k st => st = ⟨replay add m0 ((List.range k).flatMap
              (addsAt dist query gHash epsilon molModel molTarget rig_trans)),
            (List.range k).flatMap
              (addsAt dist query gHash epsilon molModel molTarget rig_trans),
            (List.range k).flatMap (queryAt epsilon molModel rig_trans)⟩)
    molModel.length 0 ⟨m0, [], []⟩ (by simp [replay]) (by
      intro k t _ hk ht
      have hk1 : k < molModel.length := by omega
      have hget : molModel[k]? = some molModel[k] := List.getElem?_eq_getElem hk1
      have hmem : molModel[k] ∈ molModel := List.getElem_mem hk1
      subst ht
      refine ⟨_, ?_, rfl⟩
      simp only [compute_trans_body, hget]
      rw [compute_trans_inner_eq add dist epsilon molTarget _ k _ _ (hq _ hmem)]
      simp [List.range_succ, List.flatMap_append, addsAt, queryAt, hget, replay_append])
  rw [hs1, hP]
  simp

theorem mem_addsAt {K H : Type} [LinearOrderedField K] (dist : Vector3 K → Vector3 K → K)
    (query : H → Vector3 K → K → List Nat) (gHash : H) (epsilon : K)
    (molModel molTarget : Molecule K) (rig_trans : RigidTrans3 K) (i : Nat) (c : AddCall K) :
    c ∈ addsAt dist query gHash epsilon molModel molTarget rig_trans i ↔
      ∃ a t, molModel[i]? = some a ∧ molTarget[c.arg1]? = some t ∧ c.arg2 = i ∧
        c.arg1 ∈ query gHash (rig_trans.apply a.position) epsilon ∧
        dist (rig_trans.apply a.position) t.position ≤ epsilon ∧
        c.arg3 = 1 / (1 + dist (rig_trans.apply a.position) t.position) ∧ c.arg4 = c.arg3 := by
  unfold addsAt
  cases hm : molModel[i]? with
  | none => simp
  | some a =>
    simp only [List.mem_filterMap, proposal]
    constructor
    · rintro ⟨x, hx, hprop⟩
      cases ht : molTarget[x]? with
      | none => simp [ht] at hprop
      | some t =>
        simp only [ht] at hprop
        split at hprop
        · rename_i hd
          cases hprop
          exact ⟨a, t, rfl, ht, rfl, hx, hd, rfl, rfl⟩
        · cases hprop
    · rintro ⟨a1, t, ha, ht, h2, hx, hd, h3, h4⟩
      cases ha
      refine ⟨c.arg1, hx, ?_⟩
      simp only [ht, if_pos hd]
      cases c
      simp_all

theorem mem_adds_range {K H : Type} [LinearOrderedField K] (dist : Vector3 K → Vector3 K → K)
    (query : H → Vector3 K → K → List Nat) (gHash : H) (epsilon : K)
    (molModel molTarget : Molecule K) (rig_trans : RigidTrans3 K) (c : AddCall K) :
    c ∈ (List.range molModel.length).flatMap
        (addsAt dist query gHash epsilon molModel molTarget rig_trans) ↔
      ∃ a t, molModel[c.arg2]? = some a ∧ molTarget[c.arg1]? = some t ∧
        c.arg1 ∈ query gHash (rig_trans.apply a.position) epsilon ∧
        dist (rig_trans.apply a.position) t.position ≤ epsilon ∧
        c.arg3 = 1 / (1 + dist (rig_trans.apply a.position) t.position) ∧ c.arg4 = c.arg3 := by
  simp only [List.mem_flatMap, List.mem_range, mem_addsAt]
  constructor
  · rintro ⟨i, _, a, t, ha, ht, h2, rest⟩
    subst h2
    exact ⟨a, t, ha, ht, rest⟩
  · rintro ⟨a, t, ha, ht, rest⟩
    have hlt : c.arg2 < molModel.length := (List.getElem?_eq_some.1 ha).1
    exact ⟨c.arg2, hlt, a, t, ha, ht, rfl, rest⟩

theorem query_indices {K : Type} [LinearOrderedField K] (epsilon : K) (molModel : Molecule K)
    (rig_trans : RigidTrans3 K) :
    ∀ k, k ≤ molModel.length →
      ((List.range k).flatMap (queryAt epsilon molModel rig_trans)).map (fun q => q.index) =
        List.range k := by
  intro k
  induction k with
  | zero => intro _; simp
  | succ k ih =>
    intro hk
    have hk1 : k < molModel.length := by omega
    have hget : molModel[k]? = some molModel[k] := List.getElem?_eq_getElem hk1
    simp [List.range_succ, List.flatMap_append, ih (by omega), queryAt, hget]

theorem mem_queries_range {K : Type} [LinearOrderedField K] (epsilon : K) (molModel : Molecule K)
    (rig_trans : RigidTrans3 K) (k : Nat) (q : QueryCall K)
    (hq : q ∈ (List.range k).flatMap (queryAt epsilon molModel rig_trans)) :
    ∃ a, molModel[q.index]? = some a ∧ q.point = rig_trans.apply a.position ∧
      q.radius = epsilon := by
  simp only [List.mem_flatMap, List.mem_range, queryAt] at hq
  obtain ⟨i, _, hi⟩ := hq
  cases hm : molModel[i]? with
  | none => simp [hm] at hi
  | some a =>
    simp only [hm, List.mem_singleton] at hi
    subst hi
    exact ⟨a, hm, rfl, rfl⟩

/-- C1 (soundness of the correspondence builder).  On every defined run of
`compute_trans` (a model of fewer than 2^32 atoms, a hash whose results at the
queried points are indices of the target), whatever the initial `Match`, the
hash, the threshold, the molecules and the transform: each recorded call
`match.add(a1, a2, a3, a4)` has `a2` a model index, `a1` a target index
returned by the query at `p = rig_trans · model[a2]`, the distance
`d = dist p target[a1]` at most `epsilon`, and `a3 = a4 = 1 / (1 + d)`; the
target index is the first argument and the model index the second. -/
theorem compute_trans_sound {K M H : Type} [LinearOrderedField K]
    (add : M → Nat → Nat → K → K → M) (dist : Vector3 K → Vector3 K → K)
    (query : H → Vector3 K → K → List Nat)
    (m0 : M) (gHash : H) (epsilon : K) (molModel molTarget : Molecule K)
    (rig_trans : RigidTrans3 K)
    (hlen : molModel.length < 2 ^ 32)
    (hq : ∀ a ∈ molModel, ∀ x ∈ query gHash (rig_trans.apply a.position) epsilon,
      x < molTarget.length) :
    ∃ st, compute_trans add dist query m0 gHash epsilon molModel molTarget rig_trans = some st ∧
      ∀ c ∈ st.adds, ∃ a t,
        c.arg2 < molModel.length ∧ molModel[c.arg2]? = some a ∧
        c.arg1 < molTarget.length ∧ molTarget[c.arg1]? = some t ∧
        c.arg1 ∈ query gHash (rig_trans.apply a.position) epsilon ∧
        dist (rig_trans.apply a.position) t.position ≤ epsilon ∧
        ¬ epsilon < dist (rig_trans.apply a.position) t.position ∧
        c.arg3 = 1 / (1 + dist (rig_trans.apply a.position) t.position) ∧
        c.arg4 = 1 / (1 + dist (rig_trans.apply a.position) t.position) := by
  refine ⟨_, compute_trans_eq add dist query m0 gHash epsilon molModel molTarget rig_trans
    hlen hq, ?_⟩
  intro c hc
  obtain ⟨a, t, ha, ht, hx, hd, h3, h4⟩ :=
    (mem_adds_range dist query gHash epsilon molModel molTarget rig_trans c).1 hc
  exact ⟨a, t, (List.getElem?_eq_some.1 ha).1, ha, (List.getElem?_eq_some.1 ht).1, ht, hx, hd,
    not_lt.2 hd, h3, h4.trans h3⟩

/-- C2 (completeness of the correspondence builder).  On a defined run, if the
query at each transformed model point returns every target index whose
position is within distance `epsilon` of that point, then every pair `(j, i)`
with `dist (rig_trans · model[i]) target[j] ≤ epsilon` is proposed by a
recorded call `match.add(j, i, s, s)` with `s = 1 / (1 + d)`, and the recorded
queries are one per model index `0, 1, …, |model| − 1`, in this order, each at
the transformed position of its atom with radius `epsilon`. -/
theorem compute_trans_complete {K M H : Type} [LinearOrderedField K]
    (add : M → Nat → Nat → K → K → M) (dist : Vector3 K → Vector3 K → K)
    (query : H → Vector3 K → K → List Nat)
    (m0 : M) (gHash : H) (epsilon : K) (molModel molTarget : Molecule K)
    (rig_trans : RigidTrans3 K)
    (hlen : molModel.length < 2 ^ 32)
    (hq : ∀ a ∈ molModel, ∀ x ∈ query gHash (rig_trans.apply a.position) epsilon,
      x < molTarget.length)
    (hball : ∀ a ∈ molModel, ∀ j t, molTarget[j]? = some t →
      dist (rig_trans.apply a.position) t.position ≤ epsilon →
      j ∈ query gHash (rig_trans.apply a.position) epsilon) :
    ∃ st, compute_trans add dist query m0 gHash epsilon molModel molTarget rig_trans = some st ∧
      (∀ i j a t, molModel[i]? = some a → molTarget[j]? = some t →
        dist (rig_trans.apply a.position) t.position ≤ epsilon →
        (⟨j, i, 1 / (1 + dist (rig_trans.apply a.position) t.position),
          1 / (1 + dist (rig_trans.apply a.position) t.position)⟩ : AddCall K) ∈ st.adds) ∧
      st.queries.map (fun q => q.index) = List.range molModel.length ∧
      (∀ q ∈ st.queries, ∃ a, molModel[q.index]? = some a ∧
        q.point = rig_trans.apply a.position ∧ q.radius = epsilon) := by
  refine ⟨_, compute_trans_eq add dist query m0 gHash epsilon molModel molTarget rig_trans
    hlen hq, ?_, ?_, ?_⟩
  · intro i j a t ha ht hd
    have hmem : a ∈ molModel := List.mem_iff_getElem?.2 ⟨i, ha⟩
    exact (mem_adds_range dist query gHash epsilon molModel molTarget rig_trans _).2
      ⟨a, t, ha, ht, hball a hmem j t ht hd, hd, rfl, rfl⟩
  · exact query_indices epsilon molModel rig_trans molModel.length (Nat.le_refl _)
  · intro q hq1
    exact mem_queries_range epsilon molModel rig_trans molModel.length q hq1

/-! ## The one-to-one invariant of `Match` -/

theorem Match.M1_filter_append {K : Type} (m : Match K) (j i : Nat) (s p : K) (h : m.M1) :
    Match.M1 (m.filter (fun e => !e.clashes j i) ++ [⟨j, i, s, p⟩]) := by
  have hsub : (m.filter (fun e => !e.clashes j i)).Sublist m := List.filter_sublist m
  have hno : ∀ e ∈ m.filter (fun e => !e.clashes j i), e.target ≠ j ∧ e.model ≠ i := by
    intro e he
    have := (List.mem_filter.1 he).2
    simp [MatchEntry.clashes] at this
    exact this
  constructor
  · rw [List.map_append, List.nodup_append]
    refine ⟨(hsub.map _).nodup h.1, by simp, ?_⟩
    intro a ha hb
    simp only [List.map_cons, List.map_nil, List.mem_singleton] at hb
    obtain ⟨e, he, rfl⟩ := List.mem_map.1 ha
    exact (hno e he).1 hb
  · rw [List.map_append, List.nodup_append]
    refine ⟨(hsub.map _).nodup h.2, by simp, ?_⟩
    intro a ha hb
    simp only [List.map_cons, List.map_nil, List.mem_singleton] at hb
    obtain ⟨e, he, rfl⟩ := List.mem_map.1 ha
    exact (hno e he).2 hb

theorem Match.add_M1 {K : Type} [LinearOrder K] (m : Match K) (j i : Nat) (s p : K)
    (h : m.M1) : (m.add j i s p).M1 := by
  unfold Match.add
  split
  · rename_i hempty
    have hall : m.filter (fun e => !e.clashes j i) = m := by
      rw [List.filter_eq_self]
      intro e he
      have hnot : e ∉ m.filter (fun e => e.clashes j i) := by
        rw [List.isEmpty_iff.1 hempty]; simp
      simpa [List.mem_filter, he] using hnot
    have := Match.M1_filter_append m j i s p h
    rwa [hall] at this
  · split
    · exact Match.M1_filter_append m j i s p h
    · exact h

theorem Match.mem_add {K : Type} [LinearOrder K] (m : Match K) (j i : Nat) (s p : K)
    (e : MatchEntry K) (he : e ∈ m.add j i s p) : e ∈ m ∨ e = ⟨j, i, s, p⟩ := by
  unfold Match.add at he
  split at he
  · simpa using he
  · split at he
    · rcases List.mem_append.1 he with h1 | h1
      · exact Or.inl (List.mem_filter.1 h1).1
      · exact Or.inr (by simpa using h1)
    · exact Or.inl he

theorem Match.replay_M1 {K : Type} [LinearOrder K] (calls : List (AddCall K)) :
    ∀ m : Match K, m.M1 → Match.M1 (replay Match.add m calls) := by
  induction calls with
  | nil => intro m h; simpa [replay] using h
  | cons c rest ih =>
    intro m h
    have := ih (m.add c.arg1 c.arg2 c.arg3 c.arg4) (Match.add_M1 m _ _ _ _ h)
    simpa [replay] using this

theorem Match.mem_replay {K : Type} [LinearOrder K] (calls : List (AddCall K)) :
    ∀ (m : Match K) (e : MatchEntry K), e ∈ replay Match.add m calls →
      e ∈ m ∨ ∃ c ∈ calls, e.target = c.arg1 ∧ e.model = c.arg2 := by
  induction calls with
  | nil => intro m e h; exact Or.inl (by simpa [replay] using h)
  | cons c rest ih =>
    intro m e h
    have h1 : e ∈ replay Match.add (m.add c.arg1 c.arg2 c.arg3 c.arg4) rest := by
      simpa [replay] using h
    rcases ih _ e h1 with h2 | ⟨d, hd, h3⟩
    · rcases Match.mem_add m _ _ _ _ e h2 with h4 | h4
      · exact Or.inl h4
      · exact Or.inr ⟨c, List.mem_cons_self _ _, by simp [h4], by simp [h4]⟩
    · exact Or.inr ⟨d, List.mem_cons_of_mem _ hd, h3⟩

theorem nodup_length_le (l : List Nat) (n : Nat) (hn : l.Nodup) (hb : ∀ x ∈ l, x < n) :
    l.length ≤ n := by
  have h1 : l.toFinset ⊆ Finset.range n := by
    intro x hx
    exact Finset.mem_range.2 (hb x (List.mem_toFinset.1 hx))
  have h2 := Finset.card_le_card h1
  rwa [List.toFinset_card_of_nodup hn, Finset.card_range] at h2

/-- C6 (T-INV-2 / M1).  With `Match::add` as the specification describes it
and an empty `Match` at the start, on every defined run of `compute_trans`:
the returned `Match` is the replay of the recorded `add` calls; after each of
these calls (after every prefix of the log) each target index and each model
index occurs in at most one stored pair; so it is on return; and the number of
stored pairs is at most `min(|model|, |target|)`. -/
theorem compute_trans_one_to_one {K H : Type} [LinearOrderedField K]
    (dist : Vector3 K → Vector3 K → K) (query : H → Vector3 K → K → List Nat)
    (gHash : H) (epsilon : K) (molModel molTarget : Molecule K) (rig_trans : RigidTrans3 K)
    (hlen : molModel.length < 2 ^ 32)
    (hq : ∀ a ∈ molModel, ∀ x ∈ query gHash (rig_trans.apply a.position) epsilon,
      x < molTarget.length) :
    ∃ st, compute_trans Match.add dist query ([] : Match K) gHash epsilon molModel molTarget
        rig_trans = some st ∧
      st.match_ = replay Match.add [] st.adds ∧
      (∀ n, Match.M1 (replay Match.add ([] : Match K) (st.adds.take n))) ∧
      Match.M1 st.match_ ∧
      Match.size st.match_ ≤ min molModel.length molTarget.length := by
  have hnil : Match.M1 ([] : Match K) := by simp [Match.M1]
  refine ⟨_, compute_trans_eq Match.add dist query [] gHash epsilon molModel molTarget rig_trans
    hlen hq, rfl, fun n => Match.replay_M1 _ _ hnil, Match.replay_M1 _ _ hnil, ?_⟩
  have hM1 := Match.replay_M1 ((List.range molModel.length).flatMap
    (addsAt dist query gHash epsilon molModel molTarget rig_trans)) ([] : Match K) hnil
  have hb : ∀ e ∈ replay Match.add ([] : Match K) ((List.range molModel.length).flatMap
      (addsAt dist query gHash epsilon molModel molTarget rig_trans)),
      e.target < molTarget.length ∧ e.model < molModel.length := by
    intro e he
    rcases Match.mem_replay _ _ e he with h1 | ⟨c, hc, h1, h2⟩
    · simp at h1
    · obtain ⟨a, t, ha, ht, _⟩ :=
        (mem_adds_range dist query gHash epsilon molModel molTarget rig_trans c).1 hc
      exact ⟨h1 ▸ (List.getElem?_eq_some.1 ht).1, h2 ▸ (List.getElem?_eq_some.1 ha).1⟩
  have h1 := nodup_length_le _ molTarget.length hM1.1 (by
    intro x hx
    obtain ⟨e, he, rfl⟩ := List.mem_map.1 hx
    exact (hb e he).1)
  have h2 := nodup_length_le _ molModel.length hM1.2 (by
    intro x hx
    obtain ⟨e, he, rfl⟩ := List.mem_map.1 hx
    exact (hb e he).2)
  simp only [List.length_map] at h1 h2
  exact le_min h2 h1

/-! ## The search driver -/

theorem wrapSub_two (w n : Nat) (hw : 2 ≤ w) (h2 : 2 ≤ n) (hn : n < 2 ^ w) :
    wrapSub w n 2 = n - 2 := by
  have h4 : 2 < 2 ^ w :=
    calc 2 < 2 ^ 2 := by norm_num
      _ ≤ 2 ^ w := Nat.pow_le_pow_right (by norm_num) hw
  unfold wrapSub
  rw [Nat.mod_eq_of_lt h4]
  have : n + 2 ^ w - 2 = n - 2 + 2 ^ w := by omega
  rw [this, Nat.add_mod_right, Nat.mod_eq_of_lt (by omega)]

theorem wrapSub_two_small (w n : Nat) (hw : 2 ≤ w) (h2 : n < 2) :
    wrapSub w n 2 = n + 2 ^ w - 2 ∧ 0 < wrapSub w n 2 := by
  have h4 : 2 < 2 ^ w :=
    calc 2 < 2 ^ 2 := by norm_num
      _ ≤ 2 ^ w := Nat.pow_le_pow_right (by norm_num) hw
  unfold wrapSub
  rw [Nat.mod_eq_of_lt h4, Nat.mod_eq_of_lt (by omega)]
  exact ⟨rfl, by omega⟩

theorem SearchState.firstMax_init {K : Type} [Zero K] [One K] :
    (SearchState.init : SearchState K).FirstMax := by
  left
  simp [SearchState.init, SearchState.best]

theorem SearchState.record_evaluated {K : Type} (st : SearchState K) (c : Candidate K) :
    (st.record c).evaluated = st.evaluated ++ [c] := by
  unfold SearchState.record
  split <;> rfl

theorem SearchState.record_best {K : Type} (st : SearchState K) (c : Candidate K) :
    (st.iMaxSize < c.size → (st.record c).best = (c.size, c.rigidTrans, c.rmsd)) ∧
    (c.size ≤ st.iMaxSize → (st.record c).best = st.best) := by
  unfold SearchState.record SearchState.best
  constructor
  · intro h; simp [h]
  · intro h; simp [not_lt.2 h]

theorem SearchState.record_best_iff {K : Type} (st : SearchState K) (c : Candidate K) :
    (st.record c).best = st.best ↔ c.size ≤ st.iMaxSize := by
  constructor
  · intro hbest
    by_contra hlt
    rw [(SearchState.record_best st c).1 (not_le.1 hlt)] at hbest
    have h2 := congrArg Prod.fst hbest
    simp only [SearchState.best] at h2
    omega
  · exact (SearchState.record_best st c).2

theorem SearchState.firstMax_record {K : Type} [Zero K] [One K] (st : SearchState K)
    (c : Candidate K) (h : st.FirstMax) : (st.record c).FirstMax := by
  have hb := SearchState.record_best st c
  have he := SearchState.record_evaluated st c
  unfold SearchState.FirstMax
  rw [he]
  rcases h with ⟨hz, hbest⟩ | ⟨pre, c0, post, hev, hpre, hpost, hpos, hbest⟩
  · have h0 : st.iMaxSize = 0 := by
      have := congrArg Prod.fst hbest
      simpa [SearchState.best] using this
    by_cases hc : c.size = 0
    · left
      refine ⟨?_, ?_⟩
      · intro d hd
        rcases List.mem_append.1 hd with h1 | h1
        · exact hz d h1
        · simp at h1; rw [h1]; exact hc
      · rw [hb.2 (by omega)]; exact hbest
    · right
      refine ⟨st.evaluated, c, [], by simp, ?_, by simp, by omega, hb.1 (by omega)⟩
      intro d hd
      rw [hz d hd]; omega
  · have h0 : st.iMaxSize = c0.size := by
      have := congrArg Prod.fst hbest
      simpa [SearchState.best] using this
    right
    by_cases hc : c0.size < c.size
    · refine ⟨st.evaluated, c, [], by simp, ?_, by simp, by omega, hb.1 (by omega)⟩
      intro d hd
      rw [hev] at hd
      rcases List.mem_append.1 hd with h1 | h1
      · have := hpre d h1; omega
      · rcases List.mem_cons.1 h1 with h2 | h2
        · rw [h2]; exact hc
        · have := hpost d h2; omega
    · refine ⟨pre, c0, post ++ [c], by simp [hev], hpre, ?_, hpos, ?_⟩
      · intro d hd
        rcases List.mem_append.1 hd with h1 | h1
        · exact hpost d h1
        · simp at h1; rw [h1]; omega
      · rw [hb.2 (by omega)]; exact hbest

theorem evalCandidate_built {K M H : Type} [LinearOrderedField K] (L : Library K M H)
    (gHash : H) (epsilon : K) (molModel molTarget : Molecule K) (i j : Nat)
    (hi : i + 2 < molTarget.length) (hj : j + 2 < molModel.length)
    (hmax : molModel.length < 2 ^ 31)
    (hq : ∀ p x, x ∈ L.query gHash p epsilon → x < molTarget.length) :
    ∃ c, evalCandidate L gHash epsilon molModel molTarget i
        ⟨molTarget[i].position, molTarget[i + 1].position, molTarget[i + 2].position⟩ j =
          some c ∧
      c.i = i ∧ c.j = j ∧ c.Built L gHash epsilon molModel molTarget := by
  have hj0 : molModel[j]? = some molModel[j] := List.getElem?_eq_getElem (by omega)
  have hj1 : molModel[j + 1]? = some molModel[j + 1] := List.getElem?_eq_getElem (by omega)
  have hj2 : molModel[j + 2]? = some molModel[j + 2] := List.getElem?_eq_getElem hj
  have hi0 : molTarget[i]? = some molTarget[i] := List.getElem?_eq_getElem (by omega)
  have hi1 : molTarget[i + 1]? = some molTarget[i + 1] := List.getElem?_eq_getElem (by omega)
  have hi2 : molTarget[i + 2]? = some molTarget[i + 2] := List.getElem?_eq_getElem hi
  have hle : j + 2 ≤ INT_MAX := by unfold INT_MAX; omega
  obtain ⟨built, hct⟩ : ∃ built, compute_trans L.add L.dist L.query L.matchNew gHash epsilon
      molModel molTarget
      (L.pose ⟨molTarget[i].position, molTarget[i + 1].position, molTarget[i + 2].position⟩
        ⟨molModel[j].position, molModel[j + 1].position, molModel[j + 2].position⟩) =
      some built :=
    ⟨_, compute_trans_eq L.add L.dist L.query L.matchNew gHash epsilon molModel molTarget _
      (by omega) (fun a _ x hx => hq _ x hx)⟩
  refine ⟨⟨i, j,
    ⟨molTarget[i].position, molTarget[i + 1].position, molTarget[i + 2].position⟩,
    ⟨molModel[j].position, molModel[j + 1].position, molModel[j + 2].position⟩,
    L.size (L.calculateBestFit built.match_ molTarget molModel),
    L.rigidTrans (L.calculateBestFit built.match_ molTarget molModel),
    L.rmsd (L.calculateBestFit built.match_ molTarget molModel)⟩, ?_, rfl, rfl, ?_⟩
  · unfold evalCandidate
    rw [if_pos hle]
    simp only [hj0, hj1, hj2, hct]
  · exact ⟨_, _, _, _, _, _, built, hi0, hi1, hi2, hj0, hj1, hj2, rfl, rfl, hct, rfl, rfl, rfl⟩

theorem candidateIndices_succ (n k : Nat) :
    candidateIndices (n + 1) k = candidateIndices n k ++ (List.range k).map (fun j => (n, j)) := by
  simp [candidateIndices, List.range_succ, List.flatMap_append]

theorem candidateIndices_pairwise (n k : Nat) :
    (candidateIndices n k).Pairwise (fun a b => a.1 < b.1 ∨ (a.1 = b.1 ∧ a.2 < b.2)) := by
  unfold candidateIndices
  rw [List.pairwise_flatMap]
  constructor
  · intro i _
    rw [List.pairwise_map]
    exact (List.pairwise_lt_range k).imp (fun h => Or.inr ⟨rfl, h⟩)
  · refine (List.pairwise_lt_range n).imp ?_
    intro a b hab x hx y hy
    obtain ⟨_, _, rfl⟩ := List.mem_map.1 hx
    obtain ⟨_, _, rfl⟩ := List.mem_map.1 hy
    exact Or.inl hab

theorem mem_candidateIndices (n k i j : Nat) :
    (i, j) ∈ candidateIndices n k ↔ i < n ∧ j < k := by
  simp [candidateIndices]

/-- The search on a defined run: the log is the list of candidates in loop
order, each built as the source builds it, and the best-so-far triple is that
of the first logged candidate of largest size. -/
theorem search_spec {K M H : Type} [LinearOrderedField K] (L : Library K M H) (w : Nat)
    (gHash : H) (epsilon : K) (molModel molTarget : Molecule K)
    (hw : 32 ≤ w) (ht : 2 ≤ molTarget.length) (hm : 2 ≤ molModel.length)
    (htmax : molTarget.length < 2 ^ 31) (hmmax : molModel.length < 2 ^ 31)
    (hq : ∀ p x, x ∈ L.query gHash p epsilon → x < molTarget.length) :
    ∃ st, search L w gHash epsilon molModel molTarget = some st ∧ st.FirstMax ∧
      st.evaluated.map (fun c => (c.i, c.j)) =
        candidateIndices (molTarget.length - 2) (molModel.length - 2) ∧
      ∀ c ∈ st.evaluated, c.Built L gHash epsilon molModel molTarget := by
  have hpow : (2 : Nat) ^ 31 ≤ 2 ^ w := Nat.pow_le_pow_right (by norm_num) (by omega)
  have hbt : wrapSub w molTarget.length 2 = molTarget.length - 2 :=
    wrapSub_two w _ (by omega) ht (by omega)
  have hbm : wrapSub w molModel.length 2 = molModel.length - 2 :=
    wrapSub_two w _ (by omega) hm (by omega)
  have hINT : INT_MAX = 2 ^ 31 - 1 := rfl
  unfold search
  rw [hbt]
  obtain ⟨s1, hs1, hP⟩ := intLoop_spec (search_outer L w gHash epsilon molModel molTarget)
    (fun k st => st.FirstMax ∧
      st.evaluated.map (fun c => (c.i, c.j)) = candidateIndices k (molModel.length - 2) ∧
      ∀ c ∈ st.evaluated, c.Built L gHash epsilon molModel molTarget)
    (molTarget.length - 2) 0 SearchState.init (by omega)
    ⟨SearchState.firstMax_init, by simp [SearchState.init, candidateIndices], by
      simp [SearchState.init]⟩
    (by
      intro i st0 _ hi hP0
      have hi2 : i + 2 < molTarget.length := by omega
      have hi0 : molTarget[i]? = some molTarget[i] := List.getElem?_eq_getElem (by omega)
      have hi1 : molTarget[i + 1]? = some molTarget[i + 1] :=
        List.getElem?_eq_getElem (by omega)
      have hi2g : molTarget[i + 2]? = some molTarget[i + 2] := List.getElem?_eq_getElem hi2
      have hle : i + 2 ≤ INT_MAX := by omega
      unfold search_outer
      rw [if_pos hle, hbm]
      simp only [hi0, hi1, hi2g]
      obtain ⟨s2, hs2, hQ⟩ := intLoop_spec
        (search_inner L gHash epsilon molModel molTarget i
          ⟨molTarget[i].position, molTarget[i + 1].position, molTarget[i + 2].position⟩)
        (fun j st => st.FirstMax ∧
          st.evaluated.map (fun c => (c.i, c.j)) =
            candidateIndices i (molModel.length - 2) ++ (List.range j).map (fun j => (i, j)) ∧
          ∀ c ∈ st.evaluated, c.Built L gHash epsilon molModel molTarget)
        (molModel.length - 2) 0 st0 (by omega)
        ⟨hP0.1, by simpa using hP0.2.1, hP0.2.2⟩
        (by
          intro j st _ hj hQ0
          obtain ⟨c, hc, hci, hcj, hbuilt⟩ := evalCandidate_built L gHash epsilon molModel
            molTarget i j hi2 (by omega) hmmax hq
          refine ⟨st.record c, by simp [search_inner, hc],
            SearchState.firstMax_record st c hQ0.1, ?_, ?_⟩
          · rw [SearchState.record_evaluated, List.map_append, hQ0.2.1]
            simp [List.range_succ, hci, hcj]
          · intro d hd
            rw [SearchState.record_evaluated] at hd
            rcases List.mem_append.1 hd with h1 | h1
            · exact hQ0.2.2 d h1
            · simp at h1; rw [h1]; exact hbuilt)
      refine ⟨s2, hs2, hQ.1, ?_, hQ.2.2⟩
      rw [hQ.2.1, candidateIndices_succ]
      simp)
  refine ⟨s1, hs1, hP.1, ?_, hP.2.2⟩
  simpa using hP.2.1

theorem SearchState.firstMax_le {K : Type} [Zero K] [One K] (st : SearchState K)
    (h : st.FirstMax) : ∀ c ∈ st.evaluated, c.size ≤ st.iMaxSize := by
  intro c hc
  rcases h with ⟨hz, _⟩ | ⟨pre, c0, post, hev, hpre, hpost, _, hbest⟩
  · rw [hz c hc]; exact Nat.zero_le _
  · have h0 : st.iMaxSize = c0.size := by
      have := congrArg Prod.fst hbest
      simpa [SearchState.best] using this
    rw [hev] at hc
    rcases List.mem_append.1 hc with h1 | h1
    · have := hpre c h1; omega
    · rcases List.mem_cons.1 h1 with h2 | h2
      · rw [h2, h0]
      · have := hpost c h2; omega

theorem SearchState.best_eq {K : Type} (st : SearchState K) (n : Nat) (T : RigidTrans3 K)
    (r : K) (h : st.best = (n, T, r)) : st.iMaxSize = n ∧ st.rtransBest = T ∧ st.rmsd = r := by
  simpa [SearchState.best] using h

/-- C3 (exhaustive enumeration and maximum).  For a target and a model of at
least 3 atoms each, on a defined run (`size()` of at least 32 bits, fewer than
2^31 atoms, hash results inside the target) the driver returns, its log of
evaluated candidates lists exactly the pairs `(i, j)` with `i < |target| − 2`
and `j < |model| − 2` in loop order, each pair exactly once (the list of
logged index pairs has no duplicate), each candidate
built from the consecutive triples at `i` and `j`, and the reported
`iMaxSize` is the maximum of the `match.size()` values of these candidates:
no candidate exceeds it and one attains it (so it is 0 when all are 0). -/
theorem search_exhaustive {K M H : Type} [LinearOrderedField K] (L : Library K M H) (w : Nat)
    (gHash : H) (epsilon : K) (molModel molTarget : Molecule K)
    (hw : 32 ≤ w) (ht : 3 ≤ molTarget.length) (hm : 3 ≤ molModel.length)
    (htmax : molTarget.length < 2 ^ 31) (hmmax : molModel.length < 2 ^ 31)
    (hq : ∀ p x, x ∈ L.query gHash p epsilon → x < molTarget.length) :
    ∃ st, search L w gHash epsilon molModel molTarget = some st ∧
      st.evaluated.map (fun c => (c.i, c.j)) =
        candidateIndices (molTarget.length - 2) (molModel.length - 2) ∧
      (∀ i j, (i, j) ∈ st.evaluated.map (fun c => (c.i, c.j)) ↔
        i < molTarget.length - 2 ∧ j < molModel.length - 2) ∧
      (st.evaluated.map (fun c => (c.i, c.j))).Nodup ∧
      (∀ c ∈ st.evaluated, c.Built L gHash epsilon molModel molTarget) ∧
      (∀ c ∈ st.evaluated, c.size ≤ st.iMaxSize) ∧
      (∃ c ∈ st.evaluated, c.size = st.iMaxSize) ∧
      ((∀ c ∈ st.evaluated, c.size = 0) → st.iMaxSize = 0) := by
  obtain ⟨st, hst, hfm, hidx, hbuilt⟩ := search_spec L w gHash epsilon molModel molTarget hw
    (by omega) (by omega) htmax hmmax hq
  have hnodup : (candidateIndices (molTarget.length - 2) (molModel.length - 2)).Nodup :=
    (candidateIndices_pairwise _ _).imp (by
      intro a b hab heq
      subst heq
      omega)
  have hmax : ∃ c ∈ st.evaluated, c.size = st.iMaxSize := by
    rcases hfm with ⟨hz, hbest⟩ | ⟨pre, c0, post, hev, _, _, _, hbest⟩
    · have h00 : ((0 : Nat), (0 : Nat)) ∈ st.evaluated.map (fun c => (c.i, c.j)) := by
        rw [hidx, mem_candidateIndices]; omega
      obtain ⟨c, hc, _⟩ := List.mem_map.1 h00
      exact ⟨c, hc, by rw [hz c hc, (SearchState.best_eq st _ _ _ hbest).1]⟩
    · exact ⟨c0, by rw [hev]; simp, (SearchState.best_eq st _ _ _ hbest).1.symm⟩
  refine ⟨st, hst, hidx, ?_, ?_, hbuilt, SearchState.firstMax_le st hfm, hmax, ?_⟩
  · intro i j
    rw [hidx, mem_candidateIndices]
  · rw [hidx]; exact hnodup
  · intro hz
    obtain ⟨c, hc, hsz⟩ := hmax
    rw [← hsz, hz c hc]

/-- C4 (tie-breaking).  On a defined run the log is in lexicographic order of
`(i, j)`.  If every candidate has size 0 the result is the initial
`(0, identity, 0)`.  Otherwise the recorded size, transform and RMSD are all
three those of one logged candidate `c`, whose size is the maximum over the
log and which is lexicographically first among the candidates of that size
(a later candidate of equal size does not replace it). -/
theorem search_first_max {K M H : Type} [LinearOrderedField K] (L : Library K M H) (w : Nat)
    (gHash : H) (epsilon : K) (molModel molTarget : Molecule K)
    (hw : 32 ≤ w) (ht : 3 ≤ molTarget.length) (hm : 3 ≤ molModel.length)
    (htmax : molTarget.length < 2 ^ 31) (hmmax : molModel.length < 2 ^ 31)
    (hq : ∀ p x, x ∈ L.query gHash p epsilon → x < molTarget.length) :
    ∃ st, search L w gHash epsilon molModel molTarget = some st ∧
      (st.evaluated.map (fun c => (c.i, c.j))).Pairwise
        (fun a b => a.1 < b.1 ∨ (a.1 = b.1 ∧ a.2 < b.2)) ∧
      ((∀ c ∈ st.evaluated, c.size = 0) →
        st.iMaxSize = 0 ∧ st.rtransBest = RigidTrans3.identity ∧ st.rmsd = 0) ∧
      ((∃ c ∈ st.evaluated, 0 < c.size) →
        ∃ c ∈ st.evaluated,
          st.iMaxSize = c.size ∧ st.rtransBest = c.rigidTrans ∧ st.rmsd = c.rmsd ∧
          (∀ d ∈ st.evaluated, d.size ≤ c.size) ∧
          (∀ d ∈ st.evaluated, d.size = c.size →
            c.i < d.i ∨ (c.i = d.i ∧ c.j ≤ d.j))) := by
  obtain ⟨st, hst, hfm, hidx, _⟩ := search_spec L w gHash epsilon molModel molTarget hw
    (by omega) (by omega) htmax hmmax hq
  have hpw : (st.evaluated.map (fun c => (c.i, c.j))).Pairwise
      (fun a b => a.1 < b.1 ∨ (a.1 = b.1 ∧ a.2 < b.2)) := by
    rw [hidx]; exact candidateIndices_pairwise _ _
  refine ⟨st, hst, hpw, ?_, ?_⟩
  · intro hz
    rcases hfm with ⟨_, hbest⟩ | ⟨pre, c0, post, hev, _, _, hpos, _⟩
    · exact SearchState.best_eq st _ _ _ hbest
    · have := hz c0 (by rw [hev]; simp)
      omega
  · rintro ⟨c1, hc1, hpos1⟩
    rcases hfm with ⟨hz, _⟩ | ⟨pre, c0, post, hev, hpre, hpost, _, hbest⟩
    · have := hz c1 hc1
      omega
    · obtain ⟨h1, h2, h3⟩ := SearchState.best_eq st _ _ _ hbest
      refine ⟨c0, by rw [hev]; simp, h1, h2, h3, ?_, ?_⟩
      · intro d hd
        have := SearchState.firstMax_le st (Or.inr ⟨pre, c0, post, hev, hpre, hpost, ‹_›, hbest⟩)
          d hd
        omega
      · intro d hd hsz
        rw [hev] at hd
        rcases List.mem_append.1 hd with h4 | h4
        · have := hpre d h4; omega
        · rcases List.mem_cons.1 h4 with h5 | h5
          · rw [h5]; exact Or.inr ⟨rfl, Nat.le_refl _⟩
          · rw [hev, List.map_append, List.map_cons, List.pairwise_append] at hpw
            have h6 := (List.pairwise_cons.1 hpw.2.1).1 (d.i, d.j)
              (List.mem_map.2 ⟨d, h5, rfl⟩)
            rcases h6 with h7 | ⟨h7, h8⟩
            · exact Or.inl h7
            · exact Or.inr ⟨h7, Nat.le_of_lt h8⟩

theorem search_small_target_none {K M H : Type} [LinearOrderedField K]
    (L : Library K M H) (w : Nat) (gHash : H) (epsilon : K) (molModel molTarget : Molecule K)
    (hw : 2 ≤ w) (ht : molTarget.length < 2) :
    search L w gHash epsilon molModel molTarget = none := by
  obtain ⟨_, h2⟩ := wrapSub_two_small w molTarget.length hw ht
  unfold search
  obtain ⟨k, hk⟩ : ∃ k, wrapSub w molTarget.length 2 = k + 1 := ⟨_, (Nat.succ_pred_eq_of_pos h2).symm⟩
  rw [hk]
  have hnone : molTarget[0 + 2]? = none := List.getElem?_eq_none (by omega)
  have hbody : search_outer L w gHash epsilon molModel molTarget 0 SearchState.init = none := by
    unfold search_outer
    split
    · rw [hnone]
      split
      · rename_i h
        cases h
      · rfl
    · rfl
  simp [intLoop, hbody]

/-- C10 as amended: the driver has no collinearity test.  For a candidate
whose target triangle or model triangle is collinear, on a defined run the
body of the inner loop computes the pose, builds a `Match` with
`compute_trans` and refines it, and logs the candidate; the best-so-far triple
after the candidate equals the one before it exactly when the size of the
candidate does not exceed the best size so far. -/
theorem search_inner_collinear {K M H : Type} [LinearOrderedField K] (L : Library K M H)
    (gHash : H) (epsilon : K) (molModel molTarget : Molecule K)
    (i : Nat) (target_tr : Triangle K) (j : Nat) (st : SearchState K) (m0 m1 m2 : Atom K)
    (hj0 : molModel[j]? = some m0) (hj1 : molModel[j + 1]? = some m1)
    (hj2 : molModel[j + 2]? = some m2) (hmax : molModel.length < 2 ^ 31)
    (hq : ∀ p x, x ∈ L.query gHash p epsilon → x < molTarget.length)
    (_hcol : target_tr.collinear ∨
      (⟨m0.position, m1.position, m2.position⟩ : Triangle K).collinear) :
    ∃ built c,
      compute_trans L.add L.dist L.query L.matchNew gHash epsilon molModel molTarget
        (L.pose target_tr ⟨m0.position, m1.position, m2.position⟩) = some built ∧
      c = ⟨i, j, target_tr, ⟨m0.position, m1.position, m2.position⟩,
        L.size (L.calculateBestFit built.match_ molTarget molModel),
        L.rigidTrans (L.calculateBestFit built.match_ molTarget molModel),
        L.rmsd (L.calculateBestFit built.match_ molTarget molModel)⟩ ∧
      search_inner L gHash epsilon molModel molTarget i target_tr j st = some (st.record c) ∧
      (st.record c).evaluated = st.evaluated ++ [c] ∧
      ((st.record c).best = st.best ↔ c.size ≤ st.iMaxSize) := by
  have hlt : j + 2 < molModel.length := (List.getElem?_eq_some.1 hj2).1
  have hle : j + 2 ≤ INT_MAX := by unfold INT_MAX; omega
  obtain ⟨built, hct⟩ : ∃ built, compute_trans L.add L.dist L.query L.matchNew gHash epsilon
      molModel molTarget (L.pose target_tr ⟨m0.position, m1.position, m2.position⟩) =
      some built :=
    ⟨_, compute_trans_eq L.add L.dist L.query L.matchNew gHash epsilon molModel molTarget _
      (by omega) (fun a _ x hx => hq _ x hx)⟩
  refine ⟨built, _, hct, rfl, ?_, SearchState.record_evaluated _ _,
    SearchState.record_best_iff _ _⟩
  unfold search_inner evalCandidate
  rw [if_pos hle]
  simp only [hj0, hj1, hj2, hct, Option.map_some']

/-! ## Centering and output -/

theorem foldl_add_position {K : Type} [LinearOrderedField K] (mol : Molecule K) :
    ∀ acc : Vector3 K, mol.foldl (fun acc a => acc.add a.position) acc =
      ⟨acc.x + (mol.map (fun a => a.position.x)).sum,
       acc.y + (mol.map (fun a => a.position.y)).sum,
       acc.z + (mol.map (fun a => a.position.z)).sum⟩ := by
  induction mol with
  | nil => intro acc; simp
  | cons a rest ih =>
    intro acc
    rw [List.foldl_cons, ih]
    simp [Vector3.add, add_assoc]

theorem centerOfMass_eq_centroid {K : Type} [LinearOrderedField K] (mol : Molecule K) :
    centerOfMass mol = centroid mol := by
  simp [centerOfMass, centroid, foldl_add_position, Vector3.zero, Vector3.sdiv]

theorem translate_neg_centroid {K : Type} [LinearOrderedField K] (mol : Molecule K) :
    mol.translate (centroid mol).neg = centred mol := by
  simp [Molecule.translate, centred, Atom.update, Vector3.add, Vector3.neg, Vector3.sub,
    sub_eq_add_neg]

theorem translate_neg_centerOfMass {K : Type} [LinearOrderedField K] (mol : Molecule K) :
    mol.translate (centerOfMass mol).neg = centred mol := by
  rw [centerOfMass_eq_centroid, translate_neg_centroid]

theorem centred_length {K : Type} [LinearOrderedField K] (mol : Molecule K) :
    (centred mol).length = mol.length := by
  simp [centred]

theorem composite_apply {K : Type} [LinearOrderedField K] (T : RigidTrans3 K)
    (cm ct x : Vector3 K) :
    (((RigidTrans3.ofTranslation ct).comp T).comp (RigidTrans3.ofTranslation cm.neg)).apply x =
      (T.apply (x.sub cm)).add ct := by
  simp only [RigidTrans3.apply, RigidTrans3.comp, RigidTrans3.ofTranslation, Matrix3.mulVec,
    Matrix3.mul, Matrix3.one, Vector3.add, Vector3.sub, Vector3.neg, Vector3.mk.injEq]
  refine ⟨?_, ?_, ?_⟩ <;> ring

/-- The output of `main` in terms of the search on the centred molecules. -/
theorem main_eq {K M H : Type} [LinearOrderedField K] (L : Library K M H) (w : Nat)
    (epsilon : K) (molModelAll molModel molTarget : Molecule K) (out : Output K) :
    main L w epsilon molModelAll molModel molTarget = some out ↔
      molModel ≠ [] ∧ molTarget ≠ [] ∧ molModelAll.length ≤ INT_MAX ∧
      ∃ st, search L w (buildHash L epsilon (centred molTarget)) epsilon (centred molModel)
          (centred molTarget) = some st ∧
        out = ⟨st.iMaxSize, st.rmsd,
          ((RigidTrans3.ofTranslation (centroid molTarget)).comp st.rtransBest).comp
            (RigidTrans3.ofTranslation (centroid molModel).neg),
          molModelAll.map (fun a => ⟨st.rtransBest.apply a.position⟩)⟩ := by
  unfold main
  simp only [centerOfMass_eq_centroid, translate_neg_centroid, Atom.update]
  by_cases hg : molModel.length = 0 ∨ molTarget.length = 0 ∨ INT_MAX < molModelAll.length
  · rw [if_pos hg]
    constructor
    · intro h; cases h
    · rintro ⟨h1, h2, h3, _⟩
      rcases hg with h | h | h
      · exact absurd (List.length_eq_zero.1 h) h1
      · exact absurd (List.length_eq_zero.1 h) h2
      · omega
  · rw [if_neg hg]
    have h1 : molModel ≠ [] := fun h => hg (Or.inl (by simp [h]))
    have h2 : molTarget ≠ [] := fun h => hg (Or.inr (Or.inl (by simp [h])))
    have h3 : molModelAll.length ≤ INT_MAX := by
      by_contra h; exact hg (Or.inr (Or.inr (by omega)))
    cases hs : search L w (buildHash L epsilon (centred molTarget)) epsilon (centred molModel)
        (centred molTarget) with
    | none => simp
    | some st =>
      simp only [Option.some.injEq]
      constructor
      · intro h; exact ⟨h1, h2, h3, st, rfl, h.symm⟩
      · rintro ⟨_, _, _, st1, hst1, hout⟩
        cases hst1
        exact hout.symm

/-- C7 (composite transform).  For non-empty backbone molecules: the centre of
mass the driver computes is the arithmetic mean of the positions, the search
runs on the molecules with their own centroid subtracted from every position,
and whenever `main` returns, the printed `Rigid Trans` is
`Translate(+c_target) ∘ T_best ∘ Translate(−c_model)` where `T_best` is the
transform found by that search; applied to any point `x` it gives
`T_best · (x − c_model) + c_target`.  `main` does return on every defined run
(at least 2 and fewer than 2^31 atoms, `size()` of at least 32 bits, hash
results inside the target). -/
theorem main_rigid_trans {K M H : Type} [LinearOrderedField K] (L : Library K M H) (w : Nat)
    (epsilon : K) (molModelAll molModel molTarget : Molecule K)
    (_hm : molModel ≠ []) (_ht : molTarget ≠ []) :
    centerOfMass molModel = centroid molModel ∧
    centerOfMass molTarget = centroid molTarget ∧
    molModel.translate (centerOfMass molModel).neg =
      molModel.map (fun a => ⟨a.position.sub (centroid molModel)⟩) ∧
    molTarget.translate (centerOfMass molTarget).neg =
      molTarget.map (fun a => ⟨a.position.sub (centroid molTarget)⟩) ∧
    (∀ out, main L w epsilon molModelAll molModel molTarget = some out →
      ∃ st, search L w
          (buildHash L epsilon (molTarget.translate (centerOfMass molTarget).neg)) epsilon
          (molModel.translate (centerOfMass molModel).neg)
          (molTarget.translate (centerOfMass molTarget).neg) = some st ∧
        out.rigidTrans =
          ((RigidTrans3.ofTranslation (centroid molTarget)).comp st.rtransBest).comp
            (RigidTrans3.ofTranslation (centroid molModel).neg) ∧
        ∀ x, out.rigidTrans.apply x =
          (st.rtransBest.apply (x.sub (centroid molModel))).add (centroid molTarget)) ∧
    (32 ≤ w → 2 ≤ molModel.length → 2 ≤ molTarget.length → molModel.length < 2 ^ 31 →
      molTarget.length < 2 ^ 31 → molModelAll.length < 2 ^ 31 →
      (∀ p x, x ∈ L.query (buildHash L epsilon
        (molTarget.translate (centerOfMass molTarget).neg)) p epsilon →
        x < molTarget.length) →
      ∃ out, main L w epsilon molModelAll molModel molTarget = some out) := by
  refine ⟨centerOfMass_eq_centroid _, centerOfMass_eq_centroid _,
    translate_neg_centerOfMass _, translate_neg_centerOfMass _, ?_, ?_⟩
  · intro out hout
    obtain ⟨_, _, _, st, hst, rfl⟩ := (main_eq L w epsilon molModelAll molModel molTarget out).1 hout
    refine ⟨st, ?_, rfl, fun x => composite_apply _ _ _ x⟩
    rw [translate_neg_centerOfMass, translate_neg_centerOfMass]
    exact hst
  · intro hw hm2 ht2 hmmax htmax hall hq
    rw [translate_neg_centerOfMass] at hq
    obtain ⟨st, hst, _⟩ := search_spec L w (buildHash L epsilon (centred molTarget)) epsilon
      (centred molModel) (centred molTarget) hw (by rw [centred_length]; exact ht2)
      (by rw [centred_length]; exact hm2) (by rw [centred_length]; exact htmax)
      (by rw [centred_length]; exact hmmax) (by rw [centred_length]; exact hq)
    refine ⟨_, (main_eq L w epsilon molModelAll molModel molTarget _).2
      ⟨?_, ?_, ?_, st, hst, rfl⟩⟩
    · intro h; rw [h] at hm2; simp at hm2
    · intro h; rw [h] at ht2; simp at ht2
    · unfold INT_MAX; omega

/-- C9 (small molecules), what the code does: for a target of fewer than 2
atoms the bound `molTarget.size() - 2` wraps to `size + 2^w − 2 > 0`, the
outer loop is entered and its first iteration indexes `molTarget[2]`, outside
the molecule.  The search is undefined and so is `main`: the initial result
`(0, identity, 0)` is not returned. -/
theorem search_small_target_undefined {K M H : Type} [LinearOrderedField K]
    (L : Library K M H) (w : Nat) (gHash : H) (epsilon : K)
    (molModelAll molModel molTarget : Molecule K)
    (hw : 2 ≤ w) (ht : molTarget.length < 2) :
    wrapSub w molTarget.length 2 = molTarget.length + 2 ^ w - 2 ∧
    0 < wrapSub w molTarget.length 2 ∧
    search L w gHash epsilon molModel molTarget = none ∧
    main L w epsilon molModelAll molModel molTarget = none := by
  obtain ⟨h1, h2⟩ := wrapSub_two_small w molTarget.length hw ht
  refine ⟨h1, h2, search_small_target_none L w gHash epsilon molModel molTarget hw ht, ?_⟩
  cases hmain : main L w epsilon molModelAll molModel molTarget with
  | none => rfl
  | some out =>
    obtain ⟨_, _, _, st, hst, _⟩ :=
      (main_eq L w epsilon molModelAll molModel molTarget out).1 hmain
    rw [search_small_target_none L w _ epsilon _ _ hw (by rw [centred_length]; exact ht)] at hst
    cases hst

/-! ## The sample library -/

theorem foldl_snoc_eq_map {α β : Type} (f : α → β) (l : List α) :
    ∀ acc : List β, l.foldl (fun h x => h ++ [f x]) acc = acc ++ l.map f := by
  induction l with
  | nil => intro acc; simp
  | cons a rest ih => intro acc; simp [ih]

theorem buildHash_sample (e : ℚ) (mol : Molecule ℚ) :
    buildHash sampleLib e mol = mol.enum.map (fun ia => (ia.2.position, ia.1)) := by
  unfold buildHash
  have := foldl_snoc_eq_map (fun ia : Nat × Atom ℚ => (ia.2.position, ia.1)) mol.enum []
  simpa [sampleLib] using this

theorem sample_query_lt (e r : ℚ) (mol : Molecule ℚ) (p : Vector3 ℚ) (x : Nat)
    (hx : x ∈ sampleLib.query (buildHash sampleLib e mol) p r) : x < mol.length := by
  rw [buildHash_sample] at hx
  simp only [sampleLib, sampleQuery, List.mem_map, List.mem_filter] at hx
  obtain ⟨⟨q, n⟩, ⟨⟨⟨k, a⟩, hka, heq⟩, _⟩, rfl⟩ := hx
  have := List.fst_lt_of_mem_enum hka
  simp only [Prod.mk.injEq] at heq
  omega

theorem sample_query_ball (e r : ℚ) (mol : Molecule ℚ) (p : Vector3 ℚ) (j : Nat) (t : Atom ℚ)
    (ht : mol[j]? = some t) (hd : sampleDist p t.position ≤ r) :
    j ∈ sampleQuery (buildHash sampleLib e mol) p r := by
  rw [buildHash_sample]
  simp only [sampleQuery, List.mem_map, List.mem_filter]
  refine ⟨(t.position, j), ⟨⟨(j, t), List.mk_mem_enum_iff_getElem?.2 ht, rfl⟩, ?_⟩, rfl⟩
  unfold sampleDist at hd
  have hx := abs_nonneg (p.x - t.position.x)
  have hy := abs_nonneg (p.y - t.position.y)
  have hz := abs_nonneg (p.z - t.position.z)
  simp only [decide_eq_true_eq]
  rw [abs_sub_comm t.position.x, abs_sub_comm t.position.y, abs_sub_comm t.position.z]
  exact ⟨by linarith, by linarith, by linarith⟩

theorem search_rigidTrans_identity {K M H : Type} [LinearOrderedField K] (L : Library K M H)
    (gHash : H) (epsilon : K) (molModel molTarget : Molecule K) (st : SearchState K)
    (hid : ∀ m, L.rigidTrans m = RigidTrans3.identity) (hfm : st.FirstMax)
    (hbuilt : ∀ c ∈ st.evaluated, c.Built L gHash epsilon molModel molTarget) :
    st.rtransBest = RigidTrans3.identity := by
  rcases hfm with ⟨_, hbest⟩ | ⟨pre, c0, post, hev, _, _, _, hbest⟩
  · exact (SearchState.best_eq st _ _ _ hbest).2.1
  · rw [(SearchState.best_eq st _ _ _ hbest).2.1]
    obtain ⟨_, _, _, _, _, _, built, _, _, _, _, _, _, _, _, _, _, h, _⟩ :=
      hbuilt c0 (by rw [hev]; simp)
    rw [h, hid]

/-! ## Evaluations on the samples -/

/-- C10, counterexample: the three atoms of the sample target `lineTarget` lie
on one line, and the driver does not skip the candidate `(0, 0)` built on
them: it is logged as evaluated, with a `Match` built and refined for it. -/
theorem collinear_candidate_not_skipped :
    (⟨⟨0, 0, 0⟩, ⟨1, 0, 0⟩, ⟨2, 0, 0⟩⟩ : Triangle ℚ).collinear ∧
    ∃ st, search sampleLib 64 (buildHash sampleLib (1 / 2) lineTarget) (1 / 2) sampleModel
        lineTarget = some st ∧
      ∃ c ∈ st.evaluated, c.i = 0 ∧ c.j = 0 ∧
        c.target_tr = ⟨⟨0, 0, 0⟩, ⟨1, 0, 0⟩, ⟨2, 0, 0⟩⟩ ∧
        c.Built sampleLib (buildHash sampleLib (1 / 2) lineTarget) (1 / 2) sampleModel
          lineTarget := by
  constructor
  · simp [Triangle.collinear, Vector3.sub, Vector3.cross, Vector3.zero]
  · obtain ⟨st, hst, _, hidx, hbuilt⟩ := search_spec sampleLib 64
      (buildHash sampleLib (1 / 2) lineTarget) (1 / 2) sampleModel lineTarget (by decide)
      (by decide) (by decide) (by decide) (by decide)
      (fun p x hx => sample_query_lt _ _ _ p x hx)
    refine ⟨st, hst, ?_⟩
    have h00 : ((0 : Nat), (0 : Nat)) ∈ st.evaluated.map (fun c => (c.i, c.j)) := by
      rw [hidx, mem_candidateIndices]
      exact ⟨by decide, by decide⟩
    obtain ⟨c, hc, hij⟩ := List.mem_map.1 h00
    simp only [Prod.mk.injEq] at hij
    refine ⟨c, hc, hij.1, hij.2, ?_, hbuilt c hc⟩
    obtain ⟨t0, t1, t2, _, _, _, _, h0, h1, h2, _, _, _, htr, _⟩ := hbuilt c hc
    rw [hij.1] at h0 h1 h2
    simp only [lineTarget, List.getElem?_cons_zero, List.getElem?_cons_succ, zero_add,
      Option.some.injEq] at h0 h1 h2
    rw [htr, ← h0, ← h1, ← h2]
    rfl

/-- C8, evaluation at the failing input: with the sample model as full-atom
model and backbone and the sample target (the model moved by `(10, 0, 0)`),
`main` returns; the atoms written to `transformed.pdb` are the atoms as read
(`T_best` is the identity and is applied without the centroid translations),
whereas the printed composite transform moves the first atom to
`(10, 0, 0)`: the file does not hold the model transformed by the printed
transform. -/
theorem transformed_not_composite :
    ∃ out, main sampleLib 64 (1 / 2) sampleModel sampleModel sampleTarget = some out ∧
      out.transformed = sampleModel ∧
      out.rigidTrans.apply ⟨0, 0, 0⟩ = ⟨10, 0, 0⟩ ∧
      out.transformed ≠ sampleModel.map (fun a => a.update (out.rigidTrans.apply a.position)) := by
  obtain ⟨st, hst, hfm, _, hbuilt⟩ := search_spec sampleLib 64
    (buildHash sampleLib (1 / 2) (centred sampleTarget)) (1 / 2) (centred sampleModel)
    (centred sampleTarget) (by decide) (by rw [centred_length]; decide)
    (by rw [centred_length]; decide) (by rw [centred_length]; decide)
    (by rw [centred_length]; decide)
    (fun p x hx => sample_query_lt _ _ _ p x hx)
  have hid := search_rigidTrans_identity sampleLib _ _ _ _ st (fun _ => rfl) hfm hbuilt
  have hcm : centroid sampleModel = ⟨1 / 3, 1 / 3, 0⟩ := by
    simp [centroid, sampleModel, atomAt]
  have hct : centroid sampleTarget = ⟨31 / 3, 1 / 3, 0⟩ := by
    simp [centroid, sampleTarget, atomAt]
    norm_num
  have happ : ∀ v : Vector3 ℚ, (RigidTrans3.identity : RigidTrans3 ℚ).apply v = v := by
    intro v
    simp [RigidTrans3.identity, RigidTrans3.apply, Matrix3.mulVec, Matrix3.one, Vector3.add,
      Vector3.zero]
  have hout := (main_eq sampleLib 64 (1 / 2) sampleModel sampleModel sampleTarget _).2
    ⟨by decide, by decide, by decide, st, hst, rfl⟩
  have hfirst : (((RigidTrans3.ofTranslation (centroid sampleTarget)).comp st.rtransBest).comp
      (RigidTrans3.ofTranslation (centroid sampleModel).neg)).apply ⟨0, 0, 0⟩ =
      (⟨10, 0, 0⟩ : Vector3 ℚ) := by
    rw [composite_apply, hid, happ, hcm, hct]
    simp [Vector3.add, Vector3.sub]
    norm_num
  have htr : sampleModel.map (fun a => (⟨st.rtransBest.apply a.position⟩ : Atom ℚ)) =
      sampleModel := by
    rw [hid]
    simp [happ]
  generalize hT : ((RigidTrans3.ofTranslation (centroid sampleTarget)).comp st.rtransBest).comp
      (RigidTrans3.ofTranslation (centroid sampleModel).neg) = T at hout hfirst
  refine ⟨_, hout, htr, hfirst, ?_⟩
  show sampleModel.map (fun a => (⟨st.rtransBest.apply a.position⟩ : Atom ℚ)) ≠
    sampleModel.map (fun a => a.update (T.apply a.position))
  rw [htr]
  intro h
  have h1 := congrArg (fun l => l.head?) h
  simp only [sampleModel, List.map_cons, List.head?_cons, Option.some.injEq, Atom.update,
    atomAt] at h1
  rw [hfirst] at h1
  simp at h1

/-- Witness of C1: the sample model, moved onto the sample target, is a
defined run. -/
theorem compute_trans_sound_witness :
    sampleModel.length < 2 ^ 32 ∧
    ∃ st, compute_trans Match.add sampleDist sampleQuery ([] : Match ℚ)
        (buildHash sampleLib (1 / 2) sampleTarget) (1 / 2) sampleModel sampleTarget
        (RigidTrans3.ofTranslation ⟨10, 0, 0⟩) = some st ∧
      ∀ c ∈ st.adds, ∃ a t,
        c.arg2 < sampleModel.length ∧ sampleModel[c.arg2]? = some a ∧
        c.arg1 < sampleTarget.length ∧ sampleTarget[c.arg1]? = some t ∧
        c.arg1 ∈ sampleQuery (buildHash sampleLib (1 / 2) sampleTarget)
          ((RigidTrans3.ofTranslation ⟨10, 0, 0⟩).apply a.position) (1 / 2) ∧
        sampleDist ((RigidTrans3.ofTranslation ⟨10, 0, 0⟩).apply a.position) t.position ≤ 1 / 2 ∧
        ¬ 1 / 2 < sampleDist ((RigidTrans3.ofTranslation ⟨10, 0, 0⟩).apply a.position)
          t.position ∧
        c.arg3 = 1 / (1 + sampleDist ((RigidTrans3.ofTranslation ⟨10, 0, 0⟩).apply a.position)
          t.position) ∧
        c.arg4 = 1 / (1 + sampleDist ((RigidTrans3.ofTranslation ⟨10, 0, 0⟩).apply a.position)
          t.position) :=
  ⟨by decide, compute_trans_sound Match.add sampleDist sampleQuery [] _ _ _ _ _ (by decide)
    (fun _ _ x hx => sample_query_lt _ _ _ _ x hx)⟩

/-- Witness of C2: the sample hash returns every target index within the
threshold, so the hypotheses hold on the sample run. -/
theorem compute_trans_complete_witness :
    sampleModel.length < 2 ^ 32 ∧
    ∃ st, compute_trans Match.add sampleDist sampleQuery ([] : Match ℚ)
        (buildHash sampleLib (1 / 2) sampleTarget) (1 / 2) sampleModel sampleTarget
        (RigidTrans3.ofTranslation ⟨10, 0, 0⟩) = some st ∧
      (∀ i j a t, sampleModel[i]? = some a → sampleTarget[j]? = some t →
        sampleDist ((RigidTrans3.ofTranslation ⟨10, 0, 0⟩).apply a.position) t.position ≤ 1 / 2 →
        (⟨j, i,
          1 / (1 + sampleDist ((RigidTrans3.ofTranslation ⟨10, 0, 0⟩).apply a.position)
            t.position),
          1 / (1 + sampleDist ((RigidTrans3.ofTranslation ⟨10, 0, 0⟩).apply a.position)
            t.position)⟩ : AddCall ℚ) ∈ st.adds) ∧
      st.queries.map (fun q => q.index) = List.range sampleModel.length ∧
      (∀ q ∈ st.queries, ∃ a, sampleModel[q.index]? = some a ∧
        q.point = (RigidTrans3.ofTranslation ⟨10, 0, 0⟩).apply a.position ∧
        q.radius = 1 / 2) :=
  ⟨by decide, compute_trans_complete Match.add sampleDist sampleQuery [] _ _ _ _ _ (by decide)
    (fun _ _ x hx => sample_query_lt _ _ _ _ x hx)
    (fun _ _ j t ht hd => sample_query_ball _ _ _ _ j t ht hd)⟩

/-- Witness of C6 on the sample run. -/
theorem compute_trans_one_to_one_witness :
    sampleModel.length < 2 ^ 32 ∧
    ∃ st, compute_trans Match.add sampleDist sampleQuery ([] : Match ℚ)
        (buildHash sampleLib (1 / 2) sampleTarget) (1 / 2) sampleModel sampleTarget
        (RigidTrans3.ofTranslation ⟨10, 0, 0⟩) = some st ∧
      st.match_ = replay Match.add [] st.adds ∧
      (∀ n, Match.M1 (replay Match.add ([] : Match ℚ) (st.adds.take n))) ∧
      Match.M1 st.match_ ∧
      Match.size st.match_ ≤ min sampleModel.length sampleTarget.length :=
  ⟨by decide, compute_trans_one_to_one sampleDist sampleQuery _ _ _ _ _ (by decide)
    (fun _ _ x hx => sample_query_lt _ _ _ _ x hx)⟩

/-- Witness of C3 on the samples (3 atoms each, one candidate). -/
theorem search_exhaustive_witness :
    (3 ≤ sampleTarget.length ∧ 3 ≤ sampleModel.length) ∧
    ∃ st, search sampleLib 64 (buildHash sampleLib (1 / 2) sampleTarget) (1 / 2) sampleModel
        sampleTarget = some st ∧
      st.evaluated.map (fun c => (c.i, c.j)) =
        candidateIndices (sampleTarget.length - 2) (sampleModel.length - 2) ∧
      (∀ i j, (i, j) ∈ st.evaluated.map (fun c => (c.i, c.j)) ↔
        i < sampleTarget.length - 2 ∧ j < sampleModel.length - 2) ∧
      (st.evaluated.map (fun c => (c.i, c.j))).Nodup ∧
      (∀ c ∈ st.evaluated, c.Built sampleLib (buildHash sampleLib (1 / 2) sampleTarget) (1 / 2)
        sampleModel sampleTarget) ∧
      (∀ c ∈ st.evaluated, c.size ≤ st.iMaxSize) ∧
      (∃ c ∈ st.evaluated, c.size = st.iMaxSize) ∧
      ((∀ c ∈ st.evaluated, c.size = 0) → st.iMaxSize = 0) :=
  ⟨⟨by decide, by decide⟩,
    search_exhaustive sampleLib 64 (buildHash sampleLib (1 / 2) sampleTarget) (1 / 2)
      sampleModel sampleTarget (by decide) (by decide) (by decide) (by decide) (by decide)
      (fun p x hx => sample_query_lt _ _ _ p x hx)⟩

/-- Witness of C4 on the samples. -/
theorem search_first_max_witness :
    (3 ≤ sampleTarget.length ∧ 3 ≤ sampleModel.length) ∧
    ∃ st, search sampleLib 64 (buildHash sampleLib (1 / 2) sampleTarget) (1 / 2) sampleModel
        sampleTarget = some st ∧
      (st.evaluated.map (fun c => (c.i, c.j))).Pairwise
        (fun a b => a.1 < b.1 ∨ (a.1 = b.1 ∧ a.2 < b.2)) ∧
      ((∀ c ∈ st.evaluated, c.size = 0) →
        st.iMaxSize = 0 ∧ st.rtransBest = RigidTrans3.identity ∧ st.rmsd = 0) ∧
      ((∃ c ∈ st.evaluated, 0 < c.size) →
        ∃ c ∈ st.evaluated,
          st.iMaxSize = c.size ∧ st.rtransBest = c.rigidTrans ∧ st.rmsd = c.rmsd ∧
          (∀ d ∈ st.evaluated, d.size ≤ c.size) ∧
          (∀ d ∈ st.evaluated, d.size = c.size →
            c.i < d.i ∨ (c.i = d.i ∧ c.j ≤ d.j))) :=
  ⟨⟨by decide, by decide⟩,
    search_first_max sampleLib 64 (buildHash sampleLib (1 / 2) sampleTarget) (1 / 2)
      sampleModel sampleTarget (by decide) (by decide) (by decide) (by decide) (by decide)
      (fun p x hx => sample_query_lt _ _ _ p x hx)⟩

/-- Witness of C9, the failing input: a target of one atom and the sample
model of three atoms, with a 64-bit `size()`. -/
theorem search_small_target_undefined_witness :
    oneAtomTarget.length < 2 ∧
    wrapSub 64 oneAtomTarget.length 2 = oneAtomTarget.length + 2 ^ 64 - 2 ∧
    0 < wrapSub 64 oneAtomTarget.length 2 ∧
    search sampleLib 64 (buildHash sampleLib (1 / 2) oneAtomTarget) (1 / 2) sampleModel
      oneAtomTarget = none ∧
    main sampleLib 64 (1 / 2) sampleModel sampleModel oneAtomTarget = none :=
  ⟨by decide, search_small_target_undefined sampleLib 64 _ _ sampleModel sampleModel
    oneAtomTarget (by decide) (by decide)⟩

/-- Witness of the amended C10: the candidate `(0, 0)` of the collinear sample
target. -/
theorem search_inner_collinear_witness :
    (⟨⟨0, 0, 0⟩, ⟨1, 0, 0⟩, ⟨2, 0, 0⟩⟩ : Triangle ℚ).collinear ∧
    ∃ built c,
      compute_trans sampleLib.add sampleLib.dist sampleLib.query sampleLib.matchNew
        (buildHash sampleLib (1 / 2) lineTarget) (1 / 2) sampleModel lineTarget
        (sampleLib.pose ⟨⟨0, 0, 0⟩, ⟨1, 0, 0⟩, ⟨2, 0, 0⟩⟩
          ⟨(atomAt 0 0 0).position, (atomAt 1 0 0).position, (atomAt 0 1 0).position⟩) =
        some built ∧
      c = ⟨0, 0, ⟨⟨0, 0, 0⟩, ⟨1, 0, 0⟩, ⟨2, 0, 0⟩⟩,
        ⟨(atomAt 0 0 0).position, (atomAt 1 0 0).position, (atomAt 0 1 0).position⟩,
        sampleLib.size (sampleLib.calculateBestFit built.match_ lineTarget sampleModel),
        sampleLib.rigidTrans (sampleLib.calculateBestFit built.match_ lineTarget sampleModel),
        sampleLib.rmsd (sampleLib.calculateBestFit built.match_ lineTarget sampleModel)⟩ ∧
      search_inner sampleLib (buildHash sampleLib (1 / 2) lineTarget) (1 / 2) sampleModel
        lineTarget 0 ⟨⟨0, 0, 0⟩, ⟨1, 0, 0⟩, ⟨2, 0, 0⟩⟩ 0 SearchState.init =
          some ((SearchState.init : SearchState ℚ).record c) ∧
      ((SearchState.init : SearchState ℚ).record c).evaluated = (SearchState.init : SearchState ℚ).evaluated ++ [c] ∧
      (((SearchState.init : SearchState ℚ).record c).best =
          (SearchState.init : SearchState ℚ).best ↔
        c.size ≤ (SearchState.init : SearchState ℚ).iMaxSize) :=
  have hcol : (⟨⟨0, 0, 0⟩, ⟨1, 0, 0⟩, ⟨2, 0, 0⟩⟩ : Triangle ℚ).collinear := by
    simp [Triangle.collinear, Vector3.sub, Vector3.cross, Vector3.zero]
  ⟨hcol, search_inner_collinear sampleLib (buildHash sampleLib (1 / 2) lineTarget) (1 / 2)
    sampleModel lineTarget 0 ⟨⟨0, 0, 0⟩, ⟨1, 0, 0⟩, ⟨2, 0, 0⟩⟩ 0 SearchState.init
    (atomAt 0 0 0) (atomAt 1 0 0) (atomAt 0 1 0) rfl rfl rfl (by decide)
    (fun p x hx => sample_query_lt _ _ _ p x hx) (Or.inl hcol)⟩

/-- Witness of C7 on the samples: `main` returns and the printed transform is
the composite of the two centroid translations with the transform found. -/
theorem main_rigid_trans_witness :
    (sampleModel ≠ [] ∧ sampleTarget ≠ []) ∧
    ∃ out st, main sampleLib 64 (1 / 2) sampleModel sampleModel sampleTarget = some out ∧
      search sampleLib 64
        (buildHash sampleLib (1 / 2) (sampleTarget.translate (centerOfMass sampleTarget).neg))
        (1 / 2) (sampleModel.translate (centerOfMass sampleModel).neg)
        (sampleTarget.translate (centerOfMass sampleTarget).neg) = some st ∧
      ∀ x, out.rigidTrans.apply x =
        (st.rtransBest.apply (x.sub (centroid sampleModel))).add (centroid sampleTarget) := by
  have hm : sampleModel ≠ [] := by decide
  have ht : sampleTarget ≠ [] := by decide
  have h := main_rigid_trans sampleLib 64 (1 / 2) sampleModel sampleModel sampleTarget hm ht
  obtain ⟨out, hout⟩ := h.2.2.2.2.2 (by decide) (by decide) (by decide) (by decide) (by decide)
    (by decide) (fun p x hx => by
      have := sample_query_lt _ _ _ p x hx
      simpa [Molecule.translate] using this)
  obtain ⟨st, hst, _, happ⟩ := h.2.2.2.2.1 out hout
  exact ⟨⟨hm, ht⟩, out, st, hout, hst, happ⟩

/-! ## The refined transform -/

set_option maxHeartbeats 1000000 in
theorem fit_adds :
    (List.range fitModel.length).flatMap (addsAt sampleDist sampleQuery
      (buildHash sampleLib (3 / 4) fitTarget) (3 / 4) fitModel fitTarget
      (RigidTrans3.ofTranslation ⟨1 / 10, 0, 0⟩)) = fitAdds := by
  rw [buildHash_sample]
  simp [fitModel, fitTarget, fitAdds, List.range_succ, addsAt, sampleQuery,
    atomAt, RigidTrans3.apply, RigidTrans3.ofTranslation, Matrix3.mulVec, Matrix3.one,
    Vector3.add, List.enum, List.enumFrom, List.filter, abs_le]
  norm_num [List.filterMap_cons, proposal, sampleDist, abs_eq_max_neg]

theorem fit_replay : replay Match.add ([] : Match ℚ) fitAdds = fitPairs := by
  simp [replay, fitAdds, fitPairs, Match.add, MatchEntry.clashes]

theorem fit_translation :
    (translationFit fitPairs fitTarget fitModel).1 = RigidTrans3.ofTranslation ⟨1 / 35, 0, 0⟩ := by
  simp [translationFit, fitPairs, fitTarget, fitModel, Molecule.positionAt, atomAt]
  norm_num

theorem fit_cost_eq (T : RigidTrans3 ℚ) :
    fitCost fitPairs fitTarget fitModel T =
      (T.rot.a11 * (-10) + T.rot.a12 * 5 + T.trans.x + 99 / 10) ^ 2 +
      (T.rot.a21 * (-10) + T.rot.a22 * 5 + T.trans.y - 5) ^ 2 +
      (T.rot.a31 * (-10) + T.rot.a32 * 5 + T.trans.z) ^ 2 +
      ((T.rot.a11 * (-10) + T.rot.a12 * (-5) + T.trans.x + 99 / 10) ^ 2 +
      (T.rot.a21 * (-10) + T.rot.a22 * (-5) + T.trans.y + 5) ^ 2 +
      (T.rot.a31 * (-10) + T.rot.a32 * (-5) + T.trans.z) ^ 2) +
      ((T.rot.a12 * 5 + T.trans.x - 1 / 10) ^ 2 +
      (T.rot.a22 * 5 + T.trans.y - 5) ^ 2 +
      (T.rot.a32 * 5 + T.trans.z) ^ 2) +
      ((T.rot.a12 * (-5) + T.trans.x - 1 / 10) ^ 2 +
      (T.rot.a22 * (-5) + T.trans.y + 5) ^ 2 +
      (T.rot.a32 * (-5) + T.trans.z) ^ 2) +
      10 / 17 * ((T.rot.a11 * 10 + T.trans.x - 54 / 5) ^ 2 +
      (T.rot.a21 * 10 + T.trans.y) ^ 2 +
      (T.rot.a31 * 10 + T.trans.z) ^ 2) +
      10 / 17 * ((T.rot.a11 * 5 + T.rot.a12 * 5 + T.trans.x - 22 / 5) ^ 2 +
      (T.rot.a21 * 5 + T.rot.a22 * 5 + T.trans.y - 5) ^ 2 +
      (T.rot.a31 * 5 + T.rot.a32 * 5 + T.trans.z) ^ 2) +
      10 / 17 * ((T.rot.a11 * 5 + T.rot.a12 * (-5) + T.trans.x - 22 / 5) ^ 2 +
      (T.rot.a21 * 5 + T.rot.a22 * (-5) + T.trans.y + 5) ^ 2 +
      (T.rot.a31 * 5 + T.rot.a32 * (-5) + T.trans.z) ^ 2) := by
  simp [fitCost, fitPairs, fitTarget, fitModel, Molecule.positionAt, atomAt, RigidTrans3.apply,
    Matrix3.mulVec, Vector3.add, Vector3.sub, Vector3.normSq]
  ring

theorem fit_best :
    IsBestFit fitPairs fitTarget fitModel (RigidTrans3.ofTranslation ⟨1 / 35, 0, 0⟩) := by
  constructor
  · simp [Matrix3.IsRotation, RigidTrans3.ofTranslation, Matrix3.one]
  · intro T hT
    obtain ⟨c1, c2, _, _, _, _, _⟩ := hT
    have h11 : T.rot.a11 ≤ 1 := by
      nlinarith [sq_nonneg (T.rot.a11 - 1), sq_nonneg T.rot.a21, sq_nonneg T.rot.a31]
    have h22 : T.rot.a22 ≤ 1 := by
      nlinarith [sq_nonneg (T.rot.a22 - 1), sq_nonneg T.rot.a12, sq_nonneg T.rot.a32]
    have key : fitCost fitPairs fitTarget fitModel T - 71 / 85 =
        98 / 17 * ((T.trans.x + T.rot.a11 * (-10 / 7) + 7 / 5) ^ 2 +
          (T.trans.y + T.rot.a21 * (-10 / 7)) ^ 2 + (T.trans.z + T.rot.a31 * (-10 / 7)) ^ 2) +
        2 * (4690 / 17) * (1 - T.rot.a11) + 2 * (2200 / 17) * (1 - T.rot.a22) := by
      rw [fit_cost_eq]
      linear_combination (4700 / 17) * c1 + (2200 / 17) * c2
    have hbest : fitCost fitPairs fitTarget fitModel (RigidTrans3.ofTranslation ⟨1 / 35, 0, 0⟩) =
        71 / 85 := by
      rw [fit_cost_eq]
      simp [RigidTrans3.ofTranslation, Matrix3.one]
      norm_num
    rw [hbest]
    have hsq : 0 ≤ 98 / 17 * ((T.trans.x + T.rot.a11 * (-10 / 7) + 7 / 5) ^ 2 +
          (T.trans.y + T.rot.a21 * (-10 / 7)) ^ 2 + (T.trans.z + T.rot.a31 * (-10 / 7)) ^ 2) := by
      positivity
    nlinarith

theorem specLibrary_replay {K H : Type} [LinearOrderedField K] (dist : Vector3 K → Vector3 K → K)
    (hashNew : Nat → K → H) (insert : H → Vector3 K → Nat → H)
    (query : H → Vector3 K → K → List Nat) (pose : Triangle K → Triangle K → RigidTrans3 K)
    (fit : Match K → Molecule K → Molecule K → RigidTrans3 K × K) (calls : List (AddCall K)) :
    ∀ m : RefinedMatch K,
      replay (specLibrary dist hashNew insert query pose fit).add m calls =
        { m with pairs := replay Match.add m.pairs calls } := by
  induction calls with
  | nil => intro m; simp [replay]
  | cons c rest ih =>
    intro m
    have := ih ((specLibrary dist hashNew insert query pose fit).add m c.arg1 c.arg2 c.arg3 c.arg4)
    simp only [replay, List.foldl_cons] at this ⊢
    rw [this]
    rfl

theorem specLibrary_candidate {K H : Type} [LinearOrderedField K]
    (dist : Vector3 K → Vector3 K → K)
    (hashNew : Nat → K → H) (insert : H → Vector3 K → Nat → H)
    (query : H → Vector3 K → K → List Nat) (pose : Triangle K → Triangle K → RigidTrans3 K)
    (fit : Match K → Molecule K → Molecule K → RigidTrans3 K × K)
    (gHash : H) (epsilon : K) (molModel molTarget : Molecule K) (c : Candidate K)
    (hlen : molModel.length < 2 ^ 32)
    (hq : ∀ p x, x ∈ query gHash p epsilon → x < molTarget.length)
    (hb : c.Built (specLibrary dist hashNew insert query pose fit) gHash epsilon molModel
      molTarget) :
    c.size = (posePairs dist query gHash epsilon molModel molTarget
      (pose c.target_tr c.model_tr)).length ∧
    c.rigidTrans = (fit (posePairs dist query gHash epsilon molModel molTarget
      (pose c.target_tr c.model_tr)) molTarget molModel).1 := by
  obtain ⟨_, _, _, _, _, _, built, _, _, _, _, _, _, _, _, hct, hsize, htrans, _⟩ := hb
  have heq := compute_trans_eq (specLibrary dist hashNew insert query pose fit).add dist query
    (specLibrary dist hashNew insert query pose fit).matchNew gHash epsilon molModel molTarget
    (pose c.target_tr c.model_tr) hlen (fun a _ x hx => hq _ x hx)
  have hct1 : compute_trans (specLibrary dist hashNew insert query pose fit).add dist query
      (specLibrary dist hashNew insert query pose fit).matchNew gHash epsilon molModel molTarget
      (pose c.target_tr c.model_tr) = some built := hct
  rw [heq] at hct1
  cases hct1
  rw [hsize, htrans, specLibrary_replay]
  exact ⟨rfl, rfl⟩

theorem posePairs_paired {K H : Type} [LinearOrderedField K] (dist : Vector3 K → Vector3 K → K)
    (query : H → Vector3 K → K → List Nat) (gHash : H) (epsilon : K)
    (molModel molTarget : Molecule K) (P : RigidTrans3 K) :
    Paired (fun a b => dist a b ≤ epsilon) P molModel molTarget
      ((posePairs dist query gHash epsilon molModel molTarget P).map
        (fun e => (e.target, e.model))) := by
  have hM1 : Match.M1 (posePairs dist query gHash epsilon molModel molTarget P) :=
    Match.replay_M1 _ _ (by simp [Match.M1])
  refine ⟨by simpa [List.map_map, Function.comp] using hM1.1,
    by simpa [List.map_map, Function.comp] using hM1.2, ?_⟩
  intro p hp
  obtain ⟨e, he, rfl⟩ := List.mem_map.1 hp
  rcases Match.mem_replay _ _ e he with h1 | ⟨c, hc, h1, h2⟩
  · simp at h1
  · obtain ⟨a, t, ha, ht, _, hd, _⟩ :=
      (mem_adds_range dist query gHash epsilon molModel molTarget P c).1 hc
    exact ⟨a, t, by simpa [h2] using ha, by simpa [h1] using ht, hd⟩

theorem paired_length_le {K : Type} [LinearOrderedField K] (close : Vector3 K → Vector3 K → Prop)
    (T : RigidTrans3 K) (molModel molTarget : Molecule K) (pairs : List (Nat × Nat))
    (h : Paired close T molModel molTarget pairs) :
    pairs.length ≤ min molModel.length molTarget.length := by
  have h1 := nodup_length_le _ molTarget.length h.1 (by
    intro x hx
    obtain ⟨p, hp, rfl⟩ := List.mem_map.1 hx
    obtain ⟨a, t, _, ht, _⟩ := h.2.2 p hp
    exact (List.getElem?_eq_some.1 ht).1)
  have h2 := nodup_length_le _ molModel.length h.2.1 (by
    intro x hx
    obtain ⟨p, hp, rfl⟩ := List.mem_map.1 hx
    obtain ⟨a, t, ha, _, _⟩ := h.2.2 p hp
    exact (List.getElem?_eq_some.1 ha).1)
  simp only [List.length_map] at h1 h2
  exact le_min h2 h1

/-- C5 as amended (T-INV-1 for the candidate pose).  With the modelled
`Match`, on a defined run: the reported size `iMaxSize` is at least the size
reported for every candidate, and unless it is 0 it is the size of the
winning candidate `c`, whose transform is the one returned, and there are
`iMaxSize` pairs `(j, i)`, one-to-one, with
`dist (P · model[i]) target[j] ≤ epsilon` for the candidate pose
`P = target_tr | model_tr` of `c`, the pose at which its `Match` was built
(not the refined transform stored afterwards). -/
theorem search_winner_pose_pairs {K H : Type} [LinearOrderedField K]
    (dist : Vector3 K → Vector3 K → K)
    (hashNew : Nat → K → H) (insert : H → Vector3 K → Nat → H)
    (query : H → Vector3 K → K → List Nat) (pose : Triangle K → Triangle K → RigidTrans3 K)
    (fit : Match K → Molecule K → Molecule K → RigidTrans3 K × K)
    (w : Nat) (gHash : H) (epsilon : K) (molModel molTarget : Molecule K)
    (hw : 32 ≤ w) (ht : 3 ≤ molTarget.length) (hm : 3 ≤ molModel.length)
    (htmax : molTarget.length < 2 ^ 31) (hmmax : molModel.length < 2 ^ 31)
    (hq : ∀ p x, x ∈ query gHash p epsilon → x < molTarget.length) :
    ∃ st, search (specLibrary dist hashNew insert query pose fit) w gHash epsilon molModel
        molTarget = some st ∧
      (∀ c ∈ st.evaluated, c.size ≤ st.iMaxSize) ∧
      (st.iMaxSize = 0 ∨
        ∃ c ∈ st.evaluated, ∃ pairs : List (Nat × Nat),
          st.iMaxSize = c.size ∧ st.rtransBest = c.rigidTrans ∧
          pairs.length = st.iMaxSize ∧
          Paired (fun a b => dist a b ≤ epsilon) (pose c.target_tr c.model_tr) molModel
            molTarget pairs) := by
  obtain ⟨st, hst, hfm, _, hbuilt⟩ := search_spec (specLibrary dist hashNew insert query pose fit)
    w gHash epsilon molModel molTarget hw (by omega) (by omega) htmax hmmax hq
  refine ⟨st, hst, SearchState.firstMax_le st hfm, ?_⟩
  rcases hfm with ⟨_, hbest⟩ | ⟨pre, c0, post, hev, _, _, _, hbest⟩
  · exact Or.inl (SearchState.best_eq st _ _ _ hbest).1
  · right
    obtain ⟨h1, h2, _⟩ := SearchState.best_eq st _ _ _ hbest
    have hc0 : c0 ∈ st.evaluated := by rw [hev]; simp
    obtain ⟨hsize, _⟩ := specLibrary_candidate dist hashNew insert query pose fit gHash epsilon
      molModel molTarget c0 (by omega) hq (hbuilt c0 hc0)
    refine ⟨c0, hc0, _, h1, h2, ?_, posePairs_paired dist query gHash epsilon molModel molTarget
      (pose c0.target_tr c0.model_tr)⟩
    rw [List.length_map, h1, hsize]

theorem fit_query_lt (p : Vector3 ℚ) (x : Nat)
    (hx : x ∈ fitLib.query (buildHash fitLib (3 / 4) fitTarget) p (3 / 4)) :
    x < fitTarget.length :=
  sample_query_lt (3 / 4) (3 / 4) fitTarget p x hx

theorem fit_posePairs :
    posePairs sampleDist sampleQuery (buildHash fitLib (3 / 4) fitTarget) (3 / 4) fitModel
      fitTarget (RigidTrans3.ofTranslation ⟨1 / 10, 0, 0⟩) = fitPairs := by
  unfold posePairs
  have h : buildHash fitLib (3 / 4) fitTarget = buildHash sampleLib (3 / 4) fitTarget := rfl
  rw [h, fit_adds, fit_replay]

theorem fit_candidate (c : Candidate ℚ)
    (hb : c.Built fitLib (buildHash fitLib (3 / 4) fitTarget) (3 / 4) fitModel fitTarget)
    (hij : c.i = c.j) (hi : c.i ≤ 1) :
    c.size = 7 ∧ c.rigidTrans = RigidTrans3.ofTranslation ⟨1 / 35, 0, 0⟩ := by
  have hpose : translationPose c.target_tr c.model_tr =
      RigidTrans3.ofTranslation ⟨1 / 10, 0, 0⟩ := by
    obtain ⟨t0, _, _, m0, _, _, _, h0, _, _, h3, _, _, htr, hmt, _⟩ := hb
    rw [← hij] at h3
    have hcases : c.i = 0 ∨ c.i = 1 := by omega
    rcases hcases with h | h
    · rw [h] at h0 h3
      simp only [fitTarget, fitModel, List.getElem?_cons_zero, Option.some.injEq] at h0 h3
      subst h0 h3
      simp only [translationPose, htr, hmt, atomAt, Vector3.sub]
      norm_num
    · rw [h] at h0 h3
      simp only [fitTarget, fitModel, List.getElem?_cons_succ, List.getElem?_cons_zero,
        Option.some.injEq] at h0 h3
      subst h0 h3
      simp only [translationPose, htr, hmt, atomAt, Vector3.sub]
      norm_num
  obtain ⟨hsize, htrans⟩ := specLibrary_candidate sampleDist (fun _ _ => [])
    (fun h p n => h ++ [(p, n)]) sampleQuery translationPose translationFit
    (buildHash fitLib (3 / 4) fitTarget) (3 / 4) fitModel fitTarget c (by decide)
    (fun p x hx => fit_query_lt p x hx) hb
  rw [hpose, fit_posePairs] at hsize htrans
  exact ⟨by rw [hsize]; rfl, by rw [htrans, fit_translation]⟩

theorem fit_size_le (c : Candidate ℚ)
    (hb : c.Built fitLib (buildHash fitLib (3 / 4) fitTarget) (3 / 4) fitModel fitTarget) :
    c.size ≤ 7 := by
  obtain ⟨hsize, _⟩ := specLibrary_candidate sampleDist (fun _ _ => [])
    (fun h p n => h ++ [(p, n)]) sampleQuery translationPose translationFit
    (buildHash fitLib (3 / 4) fitTarget) (3 / 4) fitModel fitTarget c (by decide)
    (fun p x hx => fit_query_lt p x hx) hb
  have h := paired_length_le _ _ _ _ _ (posePairs_paired sampleDist sampleQuery
    (buildHash fitLib (3 / 4) fitTarget) (3 / 4) fitModel fitTarget
    (translationPose c.target_tr c.model_tr))
  rw [List.length_map] at h
  rw [hsize]
  exact le_trans h (by decide)

theorem fit_pairing_bound (pairs : List (Nat × Nat))
    (h : Paired (fun a b => (a.sub b).normSq ≤ 3 / 4 * (3 / 4))
      (RigidTrans3.ofTranslation ⟨1 / 35, 0, 0⟩) fitModel fitTarget pairs) :
    pairs.length ≤ 6 := by
  have hmem : ∀ x ∈ pairs.map Prod.snd, x ∈ ({0, 1, 2, 3, 5, 6} : Finset Nat) := by
    intro x hx
    obtain ⟨p, hp, rfl⟩ := List.mem_map.1 hx
    obtain ⟨a, t, ha, ht, hclose⟩ := h.2.2 p hp
    have h7 : p.2 < 7 := (List.getElem?_eq_some.1 ha).1
    have h4 : p.2 ≠ 4 := by
      intro h4
      rw [h4] at ha
      simp only [fitModel, List.getElem?_cons_succ, List.getElem?_cons_zero,
        Option.some.injEq] at ha
      subst ha
      have hj : p.1 < 7 := (List.getElem?_eq_some.1 ht).1
      generalize p.1 = j at ht hj
      interval_cases j <;>
        simp only [fitTarget, List.getElem?_cons_succ, List.getElem?_cons_zero,
          Option.some.injEq] at ht <;>
        subst ht <;>
        · simp only [atomAt, RigidTrans3.apply, RigidTrans3.ofTranslation, Matrix3.mulVec,
            Matrix3.one, Vector3.add, Vector3.sub, Vector3.normSq] at hclose
          norm_num at hclose
    have : p.2 = 0 ∨ p.2 = 1 ∨ p.2 = 2 ∨ p.2 = 3 ∨ p.2 = 5 ∨ p.2 = 6 := by omega
    simp only [Finset.mem_insert, Finset.mem_singleton]
    exact this
  have hsub : (pairs.map Prod.snd).toFinset ⊆ ({0, 1, 2, 3, 5, 6} : Finset Nat) := by
    intro x hx
    exact hmem x (List.mem_toFinset.1 hx)
  have hcard := Finset.card_le_card hsub
  rw [List.toFinset_card_of_nodup h.2.1, List.length_map] at hcard
  exact le_trans hcard (by decide)

set_option maxHeartbeats 2000000 in
theorem fit_euclid (i j : Nat) (a t : Atom ℚ) (ha : fitModel[i]? = some a)
    (ht : fitTarget[j]? = some t) :
    ((((RigidTrans3.ofTranslation ⟨1 / 10, 0, 0⟩).apply a.position).sub t.position).normSq ≤
        3 / 4 * (3 / 4) ↔ i = j) ∧
    (i = j →
      sampleDist ((RigidTrans3.ofTranslation ⟨1 / 10, 0, 0⟩).apply a.position) t.position *
        sampleDist ((RigidTrans3.ofTranslation ⟨1 / 10, 0, 0⟩).apply a.position) t.position =
      (((RigidTrans3.ofTranslation ⟨1 / 10, 0, 0⟩).apply a.position).sub t.position).normSq) := by
  have hi : i < 7 := (List.getElem?_eq_some.1 ha).1
  have hj : j < 7 := (List.getElem?_eq_some.1 ht).1
  interval_cases i <;>
    simp only [fitModel, List.getElem?_cons_succ, List.getElem?_cons_zero,
      Option.some.injEq] at ha <;>
    subst ha <;>
    interval_cases j <;>
    simp only [fitTarget, List.getElem?_cons_succ, List.getElem?_cons_zero,
      Option.some.injEq] at ht <;>
    subst ht <;>
    norm_num [atomAt, RigidTrans3.apply, RigidTrans3.ofTranslation, Matrix3.mulVec,
      Matrix3.one, Vector3.add, Vector3.sub, Vector3.normSq, sampleDist, abs_eq_max_neg]

theorem fit_triangles (c : Candidate ℚ)
    (hb : c.Built fitLib (buildHash fitLib (3 / 4) fitTarget) (3 / 4) fitModel fitTarget)
    (hij : c.i = c.j) (hi : c.i ≤ 1) :
    c.target_tr = ⟨c.model_tr.a.add ⟨1 / 10, 0, 0⟩, c.model_tr.b.add ⟨1 / 10, 0, 0⟩,
      c.model_tr.c.add ⟨1 / 10, 0, 0⟩⟩ := by
  obtain ⟨t0, t1, t2, m0, m1, m2, _, h0, h1, h2, h3, h4, h5, htr, hmt, _⟩ := hb
  rw [← hij] at h3 h4 h5
  have hcases : c.i = 0 ∨ c.i = 1 := by omega
  rcases hcases with h | h
  · rw [h] at h0 h1 h2 h3 h4 h5
    simp only [fitTarget, fitModel, List.getElem?_cons_succ, List.getElem?_cons_zero, zero_add,
      Option.some.injEq] at h0 h1 h2 h3 h4 h5
    subst h0 h1 h2 h3 h4 h5
    simp only [htr, hmt, atomAt, Vector3.add]
    norm_num
  · rw [h] at h0 h1 h2 h3 h4 h5
    simp only [fitTarget, fitModel, List.getElem?_cons_succ, List.getElem?_cons_zero,
      Nat.reduceAdd, Option.some.injEq] at h0 h1 h2 h3 h4 h5
    subst h0 h1 h2 h3 h4 h5
    simp only [htr, hmt, atomAt, Vector3.add]
    norm_num

theorem fit_centred : centred fitModel = fitModel ∧ centred fitTarget = fitTarget := by
  constructor
  · simp [centred, centroid, fitModel, atomAt, Vector3.sub]
    norm_num
  · simp [centred, centroid, fitTarget, atomAt, Vector3.sub]
    norm_num

/-- C5, counterexample: the run on the samples `fitModel`, `fitTarget` (both
centred at the origin) with threshold `3/4`.

* The candidate `(0, 0)` comes first.  Its target triangle is its model
  triangle moved by `(1/10, 0, 0)`, so its pose is that translation.  At this
  pose the pairs within Euclidean distance `3/4` are exactly the 7 pairs
  `(k, k)`, on which the sample distance is the Euclidean one: its `Match` has
  all 7 pairs, `fitPairs`, and it wins with size 7, the largest possible.
* The refined transform it stores, and the driver returns, is the translation
  by `(1/35, 0, 0)`: the least-squares best fit of the 7 weighted pairs among
  all rigid transforms (`IsBestFit`).
* The candidate `(1, 1)`, whose triangles are translates of each other as
  well, also reports size 7.
* Under the returned transform the fifth model atom is farther than `3/4`
  from every target atom: at most 6 model atoms can be paired one-to-one with
  a target atom within Euclidean distance `3/4`, fewer than the size reported
  for the candidate `(1, 1)`.

`main` returns this very result. -/
theorem refined_transform_loses_pair :
    ∃ st, search fitLib 64 (buildHash fitLib (3 / 4) fitTarget) (3 / 4) fitModel fitTarget =
        some st ∧
      (∃ out, main fitLib 64 (3 / 4) fitModel fitModel fitTarget = some out ∧
        out.maxAlignmentSize = st.iMaxSize ∧
        out.transformed = fitModel.map (fun a => ⟨st.rtransBest.apply a.position⟩)) ∧
      st.iMaxSize = 7 ∧
      st.rtransBest = RigidTrans3.ofTranslation ⟨1 / 35, 0, 0⟩ ∧
      (∃ c ∈ st.evaluated, c.i = 0 ∧ c.j = 0 ∧ c.size = 7 ∧ c.rigidTrans = st.rtransBest ∧
        c.target_tr = ⟨c.model_tr.a.add ⟨1 / 10, 0, 0⟩, c.model_tr.b.add ⟨1 / 10, 0, 0⟩,
          c.model_tr.c.add ⟨1 / 10, 0, 0⟩⟩ ∧
        fitLib.pose c.target_tr c.model_tr = RigidTrans3.ofTranslation ⟨1 / 10, 0, 0⟩ ∧
        posePairs sampleDist sampleQuery (buildHash fitLib (3 / 4) fitTarget) (3 / 4) fitModel
          fitTarget (fitLib.pose c.target_tr c.model_tr) = fitPairs) ∧
      (∀ (i j : Nat) (a t : Atom ℚ), fitModel[i]? = some a → fitTarget[j]? = some t →
        ((((RigidTrans3.ofTranslation ⟨1 / 10, 0, 0⟩).apply a.position).sub
            t.position).normSq ≤ 3 / 4 * (3 / 4) ↔ i = j) ∧
        (i = j →
          sampleDist ((RigidTrans3.ofTranslation ⟨1 / 10, 0, 0⟩).apply a.position) t.position *
            sampleDist ((RigidTrans3.ofTranslation ⟨1 / 10, 0, 0⟩).apply a.position)
              t.position =
          (((RigidTrans3.ofTranslation ⟨1 / 10, 0, 0⟩).apply a.position).sub
            t.position).normSq)) ∧
      IsBestFit fitPairs fitTarget fitModel st.rtransBest ∧
      (∃ c ∈ st.evaluated, c.i = 1 ∧ c.j = 1 ∧ c.size = 7 ∧
        c.target_tr = ⟨c.model_tr.a.add ⟨1 / 10, 0, 0⟩, c.model_tr.b.add ⟨1 / 10, 0, 0⟩,
          c.model_tr.c.add ⟨1 / 10, 0, 0⟩⟩) ∧
      (∀ pairs : List (Nat × Nat),
        Paired (fun a b => (a.sub b).normSq ≤ 3 / 4 * (3 / 4)) st.rtransBest fitModel fitTarget
          pairs → pairs.length ≤ 6) := by
  obtain ⟨st, hst, hfm, hidx, hbuilt⟩ := search_spec fitLib 64
    (buildHash fitLib (3 / 4) fitTarget) (3 / 4) fitModel fitTarget (by decide) (by decide)
    (by decide) (by decide) (by decide) (fun p x hx => fit_query_lt p x hx)
  have hpw : (st.evaluated.map (fun c => (c.i, c.j))).Pairwise
      (fun a b => a.1 < b.1 ∨ (a.1 = b.1 ∧ a.2 < b.2)) := by
    rw [hidx]; exact candidateIndices_pairwise _ _
  have h00 : ((0 : Nat), (0 : Nat)) ∈ st.evaluated.map (fun c => (c.i, c.j)) := by
    rw [hidx, mem_candidateIndices]; exact ⟨by decide, by decide⟩
  have h11 : ((1 : Nat), (1 : Nat)) ∈ st.evaluated.map (fun c => (c.i, c.j)) := by
    rw [hidx, mem_candidateIndices]; exact ⟨by decide, by decide⟩
  obtain ⟨c00, hc00, hij00⟩ := List.mem_map.1 h00
  obtain ⟨c11, hc11, hij11⟩ := List.mem_map.1 h11
  simp only [Prod.mk.injEq] at hij00 hij11
  obtain ⟨hs00, ht00⟩ := fit_candidate c00 (hbuilt c00 hc00) (by omega) (by omega)
  obtain ⟨hs11, _⟩ := fit_candidate c11 (hbuilt c11 hc11) (by omega) (by omega)
  have hbest : st.best = (c00.size, c00.rigidTrans, c00.rmsd) := by
    rcases hfm with ⟨hz, _⟩ | ⟨pre, c0, post, hev, hpre, hpost, _, hbest⟩
    · have := hz c00 hc00
      omega
    · have hc0 : c0 ∈ st.evaluated := by rw [hev]; simp
      have hle := fit_size_le c0 (hbuilt c0 hc0)
      have hmem := hc00
      rw [hev] at hmem
      rcases List.mem_append.1 hmem with h1 | h1
      · have := hpre c00 h1
        omega
      · rcases List.mem_cons.1 h1 with h2 | h2
        · rw [h2]; exact hbest
        · rw [hev, List.map_append, List.map_cons, List.pairwise_append] at hpw
          have h6 := (List.pairwise_cons.1 hpw.2.1).1 (c00.i, c00.j)
            (List.mem_map.2 ⟨c00, h2, rfl⟩)
          rw [hij00.1, hij00.2] at h6
          simp only at h6
          omega
  obtain ⟨hb1, hb2, _⟩ := SearchState.best_eq st _ _ _ hbest
  have hT : st.rtransBest = RigidTrans3.ofTranslation ⟨1 / 35, 0, 0⟩ := by rw [hb2, ht00]
  have hmain : ∃ out, main fitLib 64 (3 / 4) fitModel fitModel fitTarget = some out ∧
      out.maxAlignmentSize = st.iMaxSize ∧
      out.transformed = fitModel.map (fun a => ⟨st.rtransBest.apply a.position⟩) := by
    have hst1 : search fitLib 64 (buildHash fitLib (3 / 4) (centred fitTarget)) (3 / 4)
        (centred fitModel) (centred fitTarget) = some st := by
      rw [fit_centred.1, fit_centred.2]; exact hst
    exact ⟨_, (main_eq fitLib 64 (3 / 4) fitModel fitModel fitTarget _).2
      ⟨by decide, by decide, by decide, st, hst1, rfl⟩, rfl, rfl⟩
  have hpose : fitLib.pose c00.target_tr c00.model_tr =
      RigidTrans3.ofTranslation ⟨1 / 10, 0, 0⟩ := by
    obtain ⟨t0, _, _, m0, _, _, _, h0, _, _, h3, _, _, htr, hmt, _⟩ := hbuilt c00 hc00
    rw [hij00.1] at h0
    rw [hij00.2] at h3
    simp only [fitTarget, fitModel, List.getElem?_cons_zero, Option.some.injEq] at h0 h3
    subst h0 h3
    show translationPose c00.target_tr c00.model_tr = _
    simp only [translationPose, htr, hmt, atomAt, Vector3.sub]
    norm_num
  refine ⟨st, hst, hmain, by rw [hb1, hs00], hT,
    ⟨c00, hc00, hij00.1, hij00.2, hs00, hb2.symm,
      fit_triangles c00 (hbuilt c00 hc00) (by omega) (by omega), hpose, ?_⟩,
    fun i j a t ha ht => fit_euclid i j a t ha ht, ?_,
    ⟨c11, hc11, hij11.1, hij11.2, hs11,
      fit_triangles c11 (hbuilt c11 hc11) (by omega) (by omega)⟩, ?_⟩
  · rw [hpose, fit_posePairs]
  · rw [hT]; exact fit_best
  · intro pairs hp
    rw [hT] at hp
    exact fit_pairing_bound pairs hp

/-- Witness of the amended C5 on the fit samples. -/
theorem search_winner_pose_pairs_witness :
    (3 ≤ fitTarget.length ∧ 3 ≤ fitModel.length) ∧
    ∃ st, search fitLib 64 (buildHash fitLib (3 / 4) fitTarget) (3 / 4) fitModel fitTarget =
        some st ∧
      (∀ c ∈ st.evaluated, c.size ≤ st.iMaxSize) ∧
      (st.iMaxSize = 0 ∨
        ∃ c ∈ st.evaluated, ∃ pairs : List (Nat × Nat),
          st.iMaxSize = c.size ∧ st.rtransBest = c.rigidTrans ∧
          pairs.length = st.iMaxSize ∧
          Paired (fun a b => sampleDist a b ≤ 3 / 4) (translationPose c.target_tr c.model_tr)
            fitModel fitTarget pairs) :=
  ⟨⟨by decide, by decide⟩,
    search_winner_pose_pairs sampleDist (fun _ _ => []) (fun h p n => h ++ [(p, n)]) sampleQuery
      translationPose translationFit 64 (buildHash fitLib (3 / 4) fitTarget) (3 / 4) fitModel
      fitTarget (by decide) (by decide) (by decide) (by decide) (by decide)
      (fun p x hx => fit_query_lt p x hx)⟩

end StructAlign
